import Mathlib

set_option maxRecDepth 8000

/-!
Verification development for the prescription-analysis pipeline of the
healthmate repository (`analizerend/analizer.py`).

The Python module is shallowly embedded:
* strings are Lean `String`s (operations are defined on the underlying
  `List Char`, matching Python's per-character semantics for the ASCII
  data handled by this pipeline);
* Python floats are modelled as rationals (`ℚ`), with Python's `round`
  (banker's rounding) modelled exactly;
* the external effects (filesystem check, PaddleOCR construction and
  recognition, an exception raised inside the `try` block of
  `analyze_prescription_image`) are inputs, collected in an `Env`;
* the process-global OCR reader cache (`CUSTOM_OCR_READER`,
  `READER_INITIALIZED`) is explicit state (`OcrState`), threaded through
  the functions that read or write it;
* the external `fuzzywuzzy` scorer is modelled from the spec: a
  normalized edit-distance ratio on a 0-100 scale (substitution cost 2,
  as in `Levenshtein.ratio`), symmetric and case-insensitive via the
  `full_process` preprocessor, which is embedded faithfully;
* Python's `set` has unspecified iteration order; wherever the code
  iterates over a set (`set(words)`, `list(KNOWN_DRUGS)`), the embedding
  fixes first-insertion order, a determinization of the source.
-/

namespace Analizer

/-! ### Character and string utilities (Python semantics) -/

/-- Word character in the sense of Python's regex `\w` (ASCII range). -/
def isWordChar (c : Char) : Bool := c.isAlphanum || c == '_'

/-- Whitespace stripped by Python's `str.strip()` (ASCII range). -/
def isPySpace (c : Char) : Bool :=
  c == ' ' || c == '\t' || c == '\n' || c == '\r' || c == '\x0b' || c == '\x0c'

/-- Strip characters satisfying `p` from both ends of a list. -/
def stripList (p : Char → Bool) (l : List Char) : List Char :=
  ((l.dropWhile p).reverse.dropWhile p).reverse

/-- Python `str.strip()`. -/
def pyStrip (s : String) : String := ⟨stripList isPySpace s.data⟩

/-- Python `str.lower()` (ASCII data). -/
def pyLower (s : String) : String := ⟨s.data.map Char.toLower⟩

/-- Python `str.capitalize()`: first character uppercased, rest lowercased. -/
def pyCapitalize (s : String) : String :=
  match s.data with
  | [] => ⟨[]⟩
  | c :: rest => ⟨Char.toUpper c :: rest.map Char.toLower⟩

/-- Python `len(s)` for strings. -/
def pyLen (s : String) : Nat := s.data.length

/-- Python `s[:n]`. -/
def pyTake (s : String) (n : Nat) : String := ⟨s.data.take n⟩

/-- Python `s.startswith(p)`. -/
def pyStartsWith (s p : String) : Bool := p.data.isPrefixOf s.data

/-- Lexicographic (code point) comparison of character lists, as Python
compares strings. -/
def lexLe : List Char → List Char → Bool
  | [], _ => true
  | _ :: _, [] => false
  | a :: as, b :: bs => if a < b then true else if b < a then false else lexLe as bs

/-- Python `a <= b` on strings. -/
def pyLe (a b : String) : Prop := lexLe a.data b.data = true

instance : DecidableRel pyLe := fun a b => instDecidableEqBool (lexLe a.data b.data) true

/-- Python `sorted` on strings: ascending lexicographic order. -/
def pySorted (l : List String) : List String := l.insertionSort pyLe

/-- Python's `round` to an integer: round half to even. -/
def roundHE (q : ℚ) : ℤ :=
  let f := q.floor
  if q - f < 1/2 then f
  else if (1:ℚ)/2 < q - f then f + 1
  else if f % 2 = 0 then f else f + 1

/-- Python's `round(q, 1)`. -/
def pyRound1 (q : ℚ) : ℚ := (roundHE (10 * q) : ℚ) / 10

/-! ### The fuzzy scorer (external `fuzzywuzzy` dependency)

`fuzz.ratio` is external library code, not part of this repository.
Modelled from the spec: "a normalized edit-distance-based ratio (0-100
scale, symmetric, case-insensitive)" — edit distance with substitution
cost 2 (`Levenshtein.ratio`), scaled to 0-100 and rounded half-to-even
as Python does.  `full_process` (lowercase, non-word characters to
spaces, strip) and `extractOne` (best score, first wins on ties) are
embedded following the library's documented behaviour. -/

/-- Edit distance with insertion/deletion cost 1 and substitution cost 2. -/
def lev2 : List Char → List Char → Nat
  | [], ys => ys.length
  | x :: xs, [] => (x :: xs).length
  | x :: xs, y :: ys =>
    if x = y then lev2 xs ys
    else min (min (lev2 xs (y :: ys) + 1) (lev2 (x :: xs) ys + 1)) (lev2 xs ys + 2)
termination_by a b => a.length + b.length
decreasing_by all_goals (simp only [List.length_cons]; omega)

/-- Round `num / den` half to even, on naturals. -/
def roundHEN (num den : Nat) : Nat :=
  let q := num / den
  let r := num % den
  if 2 * r < den then q
  else if den < 2 * r then q + 1
  else if q % 2 = 0 then q else q + 1

/-- The 0-100 similarity ratio (both-empty convention: 100). -/
def fuzzRatio (a b : List Char) : Nat :=
  let L := a.length + b.length
  if L = 0 then 100 else roundHEN (200 * (L - lev2 a b)) (2 * L)

/-- The `full_process` preprocessor: non-word characters become spaces,
lowercase, strip. -/
def fullProcess (l : List Char) : List Char :=
  stripList (· == ' ') (l.map (fun c => if isWordChar c then c.toLower else ' '))

/-- Fold of `extractOne`: keep the first best-scoring choice
(a later choice replaces the current best only with a strictly greater
score). -/
def extractOneAux (pw : List Char) : List (List Char) → Option (List Char × Nat) → Option (List Char × Nat)
  | [], acc => acc
  | s :: rest, acc =>
    let sc := fuzzRatio pw (fullProcess s)
    match acc with
    | none => extractOneAux pw rest (some (s, sc))
    | some (b, bs) =>
      extractOneAux pw rest (if bs < sc then some (s, sc) else some (b, bs))

/-- `process.extractOne(w, choices, scorer=fuzz.ratio)`: both the query
and every choice go through `full_process`; the original (unprocessed)
best choice is returned with its score. -/
def extractOne (w : List Char) (choices : List (List Char)) : Option (List Char × Nat) :=
  extractOneAux (fullProcess w) choices none

/-! ### Static data: the medical dictionary and interaction table -/

/-- `MEDICATION_DICT` from the source, as an insertion-ordered
association list.  The source dict literal repeats the key
`"pantoprazole"`; per Python dict-literal semantics the entry keeps its
first position and the value of the last occurrence. -/
def MEDICATION_DICT : List (String × List String) := [
  ("amoxicillin", ["amox", "amoxil", "amoxicil", "amoxicilin", "mox", "novamox", "almoxi", "wymox"]),
  ("paracetamol", ["paracet", "parcetamol", "acetaminophen", "tylenol", "crocin", "panadol", "dolo", "metacin", "calpol", "sumo", "febrex", "acepar", "pacimol"]),
  ("ibuprofen", ["ibuprofin", "ibu", "ibuprofen", "advil", "motrin", "nurofen", "brufen", "ibugesic", "combiflam"]),
  ("aspirin", ["asa", "acetylsalicylic", "aspr", "disprin", "ecotrin", "bayer", "loprin", "delisprin", "colsprin"]),
  ("lisinopril", ["lisin", "prinivil", "zestril", "qbrelis", "listril", "hipril", "zestopril"]),
  ("metformin", ["metform", "glucophage", "fortamet", "glumetza", "riomet", "glycomet", "obimet", "gluformin", "glyciphage"]),
  ("atorvastatin", ["lipitor", "atorva", "atorvastat", "lipibec", "atorlip", "atocor", "storvas"]),
  ("omeprazole", ["prilosec", "omepraz", "losec", "zegerid", "priosec", "omez", "ocid", "prazole"]),
  ("amlodipine", ["norvasc", "amlo", "amlod", "katerzia", "norvasc", "amlopress", "amlopres", "amlokind"]),
  ("levothyroxine", ["synthroid", "levothy", "levothyrox", "levoxyl", "tirosint", "euthyrox", "thyronorm", "eltroxin"]),
  ("metoprolol", ["lopressor", "toprol", "metopro", "toprol-xl", "betaloc", "metolar", "starpress"]),
  ("sertraline", ["zoloft", "sert", "sertra", "lustral", "serta", "daxid", "serlin"]),
  ("gabapentin", ["neurontin", "gaba", "gabap", "gralise", "horizant", "gabapin", "gaban", "progaba"]),
  ("hydrochlorothiazide", ["hctz", "hydrochlor", "microzide", "hydrodiuril", "hydrazide", "aquazide"]),
  ("simvastatin", ["zocor", "simvast", "simlup", "simcard", "simvotin", "zosta", "simgal"]),
  ("losartan", ["cozaar", "losart", "lavestra", "repace", "losar", "zaart", "covance"]),
  ("albuterol", ["proventil", "ventolin", "proair", "salbutamol", "asthalin", "ventofort", "aeromist"]),
  ("fluoxetine", ["prozac", "sarafem", "rapiflux", "prodep", "fludac", "flunil", "flunat"]),
  ("citalopram", ["celexa", "cipramil", "citalo", "celepram", "citalex", "citopam"]),
  ("pantoprazole", ["pantocid", "pantop", "pantodac", "panto", "pan-d", "pantozol"]),
  ("furosemide", ["lasix", "furos", "frusemide", "frusol", "lasix", "frusenex", "diucontin"]),
  ("rosuvastatin", ["crestor", "rosuvast", "rosuvas", "rovista", "rostor", "colver"]),
  ("escitalopram", ["lexapro", "cipralex", "nexito", "feliz", "stalopam", "nexito-forte"]),
  ("montelukast", ["singulair", "montek", "montair", "monticope", "romilast", "monty-lc"]),
  ("prednisone", ["deltasone", "predni", "orasone", "predcip", "omnacortil", "wysolone"]),
  ("warfarin", ["coumadin", "jantoven", "warf", "warfex", "warfrant", "uniwarfin"]),
  ("tramadol", ["ultram", "tram", "tramahexal", "tramazac", "domadol", "tramacip"]),
  ("azithromycin", ["zithromax", "azithro", "z-pak", "azith", "azee", "aziwok", "azimax", "zithrocin"]),
  ("ciprofloxacin", ["cipro", "ciloxan", "ciproxin", "ciplox", "ciprobid", "cifran", "ciprinol"]),
  ("lamotrigine", ["lamictal", "lamot", "lamotrigin", "lamogard", "lamitor", "lametec"]),
  ("venlafaxine", ["effexor", "venlaf", "venlor", "veniz", "ventab", "venlift"]),
  ("insulin", ["lantus", "humulin", "novolin", "humalog", "novolog", "tresiba", "insugen", "wosulin", "basalog", "insuman", "apidra"]),
  ("metronidazole", ["flagyl", "metro", "metrogel", "metrogyl", "metrozole", "aristogyl"]),
  ("naproxen", ["aleve", "naprosyn", "anaprox", "xenar", "napra", "napxen"]),
  ("doxycycline", ["vibramycin", "oracea", "doxy", "doxin", "biodoxi", "doxt"]),
  ("cetirizine", ["zyrtec", "cetryn", "cetriz", "alerid", "cetcip", "zirtin", "cetzine"]),
  ("diazepam", ["valium", "valpam", "dizac", "calmpose", "zepose", "sedopam"]),
  ("alprazolam", ["xanax", "alprax", "tafil", "alp", "alzolam", "zolax", "restyl", "trika"]),
  ("clonazepam", ["klonopin", "rivotril", "clon", "petril", "clonopam", "lonazep"]),
  ("carvedilol", ["coreg", "carvedil", "cardivas", "carca", "carvil", "carloc"]),
  ("fexofenadine", ["allegra", "telfast", "fexofine", "fexova", "agimfast", "allerfast"]),
  ("ranitidine", ["zantac", "ranit", "rantec", "aciloc", "zinetac", "histac"]),
  ("diclofenac", ["voltaren", "diclof", "diclomax", "voveran", "diclonac", "reactin"]),
  ("ceftriaxone", ["rocephin", "ceftri", "cefaxone", "inocef", "trixone", "monotax"]),
  ("cefixime", ["suprax", "cefi", "taxim", "unice", "cefispan", "omnicef"]),
  ("esomeprazole", ["nexium", "esotrex", "esopral", "nexpro", "raciper", "sompraz"]),
  ("clopidogrel", ["plavix", "clopid", "plagerine", "clopilet", "deplatt", "noklot"]),
  ("levocetirizine", ["xyzal", "levocet", "teczine", "levazeo", "xyzra", "uvnil"]),
  ("febuxostat", ["uloric", "febugat", "febuget", "zylobact", "febustat"]),
  ("telmisartan", ["micardis", "telma", "telsar", "sartel", "telvas", "cresar"]),
  ("folic acid", ["folate", "folvite", "folet", "folacin", "folitab", "obifolic"]),
  ("olmesartan", ["olmat", "olmy", "benitec", "olmezest", "olsar"]),
  ("vildagliptin", ["galvus", "zomelis", "jalra", "vysov", "vildalip", "viladay"]),
  ("sitagliptin", ["januvia", "sitagen", "istamet", "janumet", "sitaglip", "trevia"]),
  ("glimepiride", ["amaryl", "glimpid", "glymex", "zoryl", "glimer", "diaglip"]),
  ("gliclazide", ["diamicron", "lycazid", "glizid", "reclide", "odinase", "glynase"]),
  ("ramipril", ["altace", "cardiopril", "cardace", "ramiril", "celapres", "ramace"]),
  ("nebivolol", ["bystolic", "nebistar", "nebicard", "nebilong", "nebilet", "nubeta"]),
  ("cilnidipine", ["cilacar", "cinod", "ciladay", "neudipine", "cilaheart", "cidip"]),
  ("rabeprazole", ["aciphex", "rablet", "rabicip", "razo", "raboz", "pepcia"]),
  ("dexamethasone", ["decadron", "dexona", "dexamycin", "dexacort", "decilone", "dexasone"]),
  ("doxofylline", ["doxolin", "synasma", "doxobid", "doxovent", "doxoril", "doxfree"]),
  ("deflazacort", ["dezacor", "defcort", "defza", "xenocort", "flacort", "defolet"]),
  ("ondansetron", ["zofran", "ondem", "emeset", "vomitrol", "zondem", "ondemet"]),
  ("domperidone", ["motilium", "domstal", "vomistop", "dompan", "dompy", "domcolic"]),
  ("mefenamic acid", ["ponstan", "meftal", "meflam", "mefkind", "rafen", "mefgesic"]),
  ("aceclofenac", ["aceclo", "hifenac", "zerodol", "movon", "aceclo-plus", "acebid"]),
  ("nimesulide", ["nise", "nimulid", "nimek", "nimica", "nimcet", "nimsaid"]),
  ("hydroxyzine", ["atarax", "anxnil", "hyzox", "hydryllin", "anxipar", "hydrax"]),
  ("amlodipine + atenolol", ["amlokind-at", "amtas-at", "stamlo-beta", "tenolam", "amlopress-at"]),
  ("telmisartan + hydrochlorothiazide", ["telma-h", "telsar-h", "telvas-h", "tazloc-h", "telista-h"]),
  ("sulfamethoxazole + trimethoprim", ["bactrim", "septran", "cotrim", "sepmax", "oriprim"]),
  ("amoxicillin + clavulanic acid", ["augmentin", "moxclav", "megaclox", "clavam", "hiclav", "clavum"]),
  ("ofloxacin", ["oflox", "oflin", "tarivid", "zenflox", "oflacin", "exocin"]),
  ("torsemide", ["demadex", "dytor", "tide", "torlactone", "presage", "tomide"]),
  ("chlorthalidone", ["thalitone", "clorpres", "cloress", "natrilix", "thaloride"]),
  ("ivermectin", ["stromectol", "ivermect", "ivecop", "ivepred", "scabo", "ivernex"]),
  ("rifaximin", ["xifaxan", "rifagut", "rcifax", "rifakem", "rifamide"]),
  ("nitrofurantoin", ["furadantin", "niftran", "nitrofur", "furadoine", "nidantin"]),
  ("betahistine", ["serc", "vertin", "betaserc", "vertigo", "beta", "histiwel"]),
  ("etizolam", ["etilaam", "etizola", "sedekopan", "etizaa", "etzee", "etova"]),
  ("clotrimazole", ["candid", "clotri", "mycomax", "candiderma", "candifun", "clotop"]),
  ("ketoconazole", ["nizoral", "sebizole", "ketoz", "fungicide", "ketomac", "ketostar"]),
  ("fluconazole", ["diflucan", "flucz", "forcan", "syscan", "zocon", "flucos"]),
  ("pregabalin", ["lyrica", "pregeb", "maxgalin", "nervalin", "pregastar", "pregica"]),
  ("methylprednisolone", ["medrol", "methylpred", "depo-medrol", "solu-medrol", "depopred", "medrate"]),
  ("levetiracetam", ["keppra", "levesam", "levroxa", "levipil", "levecetam", "epictal"])]

/-- Python's substring test `p in s`. -/
def isSubstr (p : List Char) : List Char → Bool
  | [] => p.isEmpty
  | c :: cs => p.isPrefixOf (c :: cs) || isSubstr p cs

/-- Deduplication keeping first occurrences, in order. -/
def dedupFirstAux {α : Type} [DecidableEq α] : List α → List α → List α
  | [], _ => []
  | x :: rest, seen =>
    if x ∈ seen then dedupFirstAux rest seen else x :: dedupFirstAux rest (x :: seen)

/-- Deduplication keeping first occurrences, in order. -/
def dedupFirst {α : Type} [DecidableEq α] (l : List α) : List α := dedupFirstAux l []

/-- Every key and alias of `MEDICATION_DICT` in insertion order, before
set-deduplication. -/
def DRUG_POOL : List String := MEDICATION_DICT.flatMap (fun kv => kv.1 :: kv.2)

/-- `KNOWN_DRUGS`: the Python `set` of every key and alias, determinized
to first-insertion order. -/
def KNOWN_DRUGS : List String := dedupFirst DRUG_POOL

/-- Message of the `'ibuprofen-lisinopril'` entry of `MOCK_INTERACTIONS`. -/
def ibuprofenLisinoprilMsg : String :=
  "Major interaction: Ibuprofen can reduce the effectiveness of Lisinopril for blood pressure control."

/-- Message of the `'amoxicillin-aspirin'` entry of `MOCK_INTERACTIONS`. -/
def amoxicillinAspirinMsg : String :=
  "Minor interaction: May increase the risk of stomach irritation."

/-- Message of the `'statin-grapefruit'` entry of `MOCK_INTERACTIONS`. -/
def statinGrapefruitMsg : String :=
  "Major interaction: Statins (e.g., Atorvastatin) combined with grapefruit can dangerously increase drug levels."

/-- Message of the `'metformin-alcohol'` entry of `MOCK_INTERACTIONS`. -/
def metforminAlcoholMsg : String :=
  "Moderate interaction: Alcohol consumption can increase the risk of lactic acidosis with Metformin."

/-- `MOCK_INTERACTIONS` from the source. -/
def MOCK_INTERACTIONS : List (String × String) := [
  ("ibuprofen-lisinopril", ibuprofenLisinoprilMsg),
  ("amoxicillin-aspirin", amoxicillinAspirinMsg),
  ("statin-grapefruit", statinGrapefruitMsg),
  ("metformin-alcohol", metforminAlcoholMsg)]

/-! ### `apply_medical_dictionary_correction` -/

/-- Tokenizer aux: accumulate the current word run (reversed). -/
def wordTokensAux : List Char → List Char → List (List Char)
  | [], acc => if acc = [] then [] else [acc.reverse]
  | c :: rest, acc =>
    if isWordChar c then wordTokensAux rest (c :: acc)
    else if acc = [] then wordTokensAux rest []
    else acc.reverse :: wordTokensAux rest []

/-- `re.findall(r'\b\w+\b', ...)`: the maximal runs of word characters. -/
def wordTokens (l : List Char) : List (List Char) := wordTokensAux l []

/-- Case-insensitive literal match of the (lowercase) pattern `p` against
a prefix of the text; returns the remainder on success. -/
def matchCI : List Char → List Char → Option (List Char)
  | [], l => some l
  | _ :: _, [] => none
  | p :: ps, c :: cs => if p = c.toLower then matchCI ps cs else none

/-- Scan for the first whole-word case-insensitive occurrence of `w`
(`re.sub` with pattern `\b`+word+`\b` and `count=1`); `pw` records
whether the previous character was a word character (so `\b` fails). -/
def substFirstAux (w r : List Char) : Bool → List Char → Option (List Char)
  | _, [] => none
  | pw, c :: cs =>
    if pw then (substFirstAux w r (isWordChar c) cs).map (c :: ·)
    else
      match matchCI w (c :: cs) with
      | none => (substFirstAux w r (isWordChar c) cs).map (c :: ·)
      | some rem =>
        match rem.head? with
        | none => some (r ++ rem)
        | some d =>
          if isWordChar d then (substFirstAux w r (isWordChar c) cs).map (c :: ·)
          else some (r ++ rem)

/-- Replace the first whole-word case-insensitive occurrence of `w` by
`r`; the text is unchanged when there is no occurrence. -/
def substFirst (w r t : List Char) : List Char := (substFirstAux w r false t).getD t

/-- Result of `re.sub` with the `\b`-delimited word pattern starting from
boundary state `pw`: the text when no occurrence exists, else the text
with the first occurrence replaced. -/
def substRes (w r : List Char) (pw : Bool) (t : List Char) : List Char :=
  (substFirstAux w r pw t).getD t

/-- The character before the candidate region is a non-word position:
either the tracked boundary state is `false` (empty prefix), or the
prefix ends in a non-word character. -/
def lastNonWord (pre : List Char) (pw : Bool) : Prop :=
  match pre.getLast? with
  | none => pw = false
  | some x => isWordChar x = false

/-- The character after the candidate region, if any, is a non-word
character. -/
def headNonWord (post : List Char) : Prop :=
  match post.head? with
  | none => True
  | some d => isWordChar d = false

/-- `c` occurs in `t` as a whole word (a nonempty run of word characters
delimited by word boundaries), relative to incoming boundary state `pw`. -/
def IsTokenOccA (c t : List Char) (pw : Bool) : Prop :=
  c ≠ [] ∧ (∀ x ∈ c, isWordChar x = true) ∧
    ∃ pre post, t = pre ++ c ++ post ∧ lastNonWord pre pw ∧ headNonWord post

/-- `c` occurs in `t` as a whole word delimited by word boundaries. -/
def IsTokenOcc (c t : List Char) : Prop := IsTokenOccA c t false

/-- One iteration of the correction loop for a single word. -/
def correctionStep (t : List Char) (w : List Char) : List Char :=
  if w.length < 4 ∨ w.all Char.isDigit then t
  else
    match extractOne w (KNOWN_DRUGS.map String.data) with
    | none => t
    | some (best, score) => if 75 < score then substFirst w best t else t

/-- `apply_medical_dictionary_correction` from the source: tokenize the
lowercased text, and for each distinct word of length at least 4 that is
not purely numeric, replace its first whole-word occurrence by the best
lexicon match when the score clears 75. -/
def apply_medical_dictionary_correction (text : String) : String :=
  if text = "" then text
  else
    let words := wordTokens (pyLower text).data
    ⟨(dedupFirst words).foldl correctionStep text.data⟩

/-! ### `extract_medications_from_text` -/

/-- Word-boundary (`\b`) test between a left context and a character. -/
def bndDiff (left : Option Char) (c : Char) : Bool :=
  (match left with | none => false | some x => isWordChar x) != isWordChar c

/-- Does `\b`+term+`\b` match at the head of `l`, with `prev` the
character just before (if any)? -/
def termMatchAt (term l : List Char) (prev : Option Char) : Bool :=
  match term with
  | [] => false
  | t0 :: _ =>
    term.isPrefixOf l && bndDiff prev t0 &&
      bndDiff ((l.drop term.length).head?) (term.getLast?.getD t0)

/-- Scan `l` for a whole-word occurrence of `term` (`re.search`). -/
def searchWBAux (term : List Char) : Option Char → List Char → Bool
  | _, [] => false
  | prev, c :: cs => termMatchAt term (c :: cs) prev || searchWBAux term (some c) cs

/-- `re.search(r'\b'+re.escape(term)+r'\b', text)` as a Boolean. -/
def searchWB (term l : List Char) : Bool := searchWBAux term none l

/-- `extract_medications_from_text` from the source: each dictionary
entry whose key or any alias occurs (whole-word) in the lowercased text
contributes its capitalized key once.  The Python `set` is determinized
to dictionary order; `analyze_prescription_image` sorts the result. -/
def extract_medications_from_text (text : String) : List String :=
  let text_lower := pyLower text
  (MEDICATION_DICT.filter
      (fun kv => (kv.1 :: kv.2).any (fun term => searchWB term.data text_lower.data))).map
    (fun kv => pyCapitalize kv.1)

/-! ### `check_drug_interactions` -/

/-- Python `'-'.join(l)`. -/
def joinHyphen : List String → String
  | [] => ""
  | [x] => x
  | x :: xs => x ++ "-" ++ joinHyphen xs

/-- The standardized (alphabetically ordered) two-drug key. -/
def interactionKey (m1 m2 : String) : String := joinHyphen (pySorted [m1, m2])

/-- Lookup in `MOCK_INTERACTIONS`. -/
def lookupMock (k : String) : Option String :=
  (MOCK_INTERACTIONS.find? (fun kv => kv.1 = k)).map (fun kv => kv.2)

/-- The formatted pair warning for a hit of the two-drug table. -/
def pairWarnAgainst (m1 m2 : String) : Option String :=
  (lookupMock (interactionKey m1 m2)).map
    (fun msg => "Interaction (" ++ pyCapitalize m1 ++ " + " ++ pyCapitalize m2 ++ "): " ++ msg)

/-- The double loop over indices `i < j` of the lowercased medications. -/
def pairWarnings : List String → List String
  | [] => []
  | m :: rest => rest.filterMap (pairWarnAgainst m) ++ pairWarnings rest

/-- The keyword checks run for one medication (statin-grapefruit, then
metformin-alcohol). -/
def keywordStep (medsLower : List String) (med : String) : List String :=
  (if isSubstr "statin".data med.data = true ∧ ("grapefruit" ∈ medsLower ∨ "juice" ∈ medsLower)
    then ["Major Alert: " ++ statinGrapefruitMsg] else [])
  ++ (if isSubstr "metformin".data med.data = true
    then ["General Warning: " ++ metforminAlcoholMsg] else [])

/-- The keyword-rule loop over the lowercased medications. -/
def keywordWarnings (medsLower : List String) : List String :=
  medsLower.flatMap (keywordStep medsLower)

/-- `check_drug_interactions` from the source. -/
def check_drug_interactions (medications : List String) : List String :=
  let meds_lower := medications.map pyLower
  pairWarnings meds_lower ++ keywordWarnings meds_lower

/-! ### OCR engine state machine and the analyzer -/

/-- The process-global reader cache: `CUSTOM_OCR_READER` and
`READER_INITIALIZED`.  `H` is the (opaque to this module) engine handle
type. -/
structure OcrState (H : Type) where
  reader : Option H
  initialized : Bool

/-- The state at process start: `CUSTOM_OCR_READER = None`,
`READER_INITIALIZED = False`. -/
def ocrStart {H : Type} : OcrState H := ⟨none, false⟩

/-- `initialize_ocr_reader` from the source: the first call stores the
outcome of constructing the engine (`attempt`, `none` when the
constructor raised) and marks the cache initialized; later calls return
the cached handle unchanged. -/
def init_ocr_reader {H : Type} (attempt : Option H) (s : OcrState H) : OcrState H × Option H :=
  if s.initialized then (s, s.reader)
  else (⟨attempt, true⟩, attempt)

/-- Outcome of one `reader.ocr(path)` call: an exception message, or the
well-formed recognized lines (text with confidence in 0-1). -/
abbrev OcrOutcome := Except String (List (String × ℚ))

/-- Concatenation of the recognized line texts, each followed by a
newline. -/
def joinLines : List (String × ℚ) → String
  | [] => ""
  | l :: ls => l.1 ++ "\n" ++ joinLines ls

/-- `extract_text_paddle_single_pass` from the source: initialize the
reader (failing fast with the sentinel text and confidence 0.0 when the
handle is `None`); on an OCR exception return the `PaddleOCR Error`
sentinel; otherwise the stripped concatenated text with the mean line
confidence scaled to a percentage. -/
def extract_text_paddle_single_pass {H : Type} (attempt : Option H) (ocrRes : OcrOutcome)
    (s : OcrState H) : OcrState H × (String × ℚ) :=
  let p := init_ocr_reader attempt s
  match p.2 with
  | none => (p.1, ("OCR Engine Failed Initialization.", 0))
  | some _ =>
    match ocrRes with
    | .error e => (p.1, ("PaddleOCR Error: " ++ e, 0))
    | .ok lines =>
      let confs := lines.map Prod.snd
      let avg : ℚ := if confs.length = 0 then 0 else confs.sum / (confs.length : ℚ)
      (p.1, (pyStrip (joinLines lines), avg * 100))

/-- The structured result dict of `analyze_prescription_image`. -/
structure AnalysisResult where
  medications : List String
  interactions : List String
  raw_text_snippet : String
  accuracy_score : ℚ
deriving DecidableEq, Repr

/-- The external circumstances of one `analyze_prescription_image` call:
whether the input file exists, the outcome of constructing the engine on
a first initialization, the outcome of the recognition call, and an
exception raised inside the `try` block after the snippet/score
assignment (modelling, e.g., the logging call raising), `none` when the
body runs to completion. -/
structure Env (H : Type) where
  fileExists : Bool
  attempt : Option H
  ocr : OcrOutcome
  exn : Option String

/-- `analyze_prescription_image` from the source.  The result dict is
built incrementally exactly as in the Python code; in particular the
`except` handler only overwrites `medications`, keeping whatever
`accuracy_score` and `raw_text_snippet` were already assigned. -/
def analyze_prescription_image {H : Type} (env : Env H) (s : OcrState H) :
    OcrState H × AnalysisResult :=
  let base : AnalysisResult := ⟨[], [], "Analysis Failed.", 0⟩
  if env.fileExists = false then
    (s, { base with medications := ["Error: Input file not found on server."] })
  else
    let p := extract_text_paddle_single_pass env.attempt env.ocr s
    let raw_text := p.2.1
    let confidence := p.2.2
    if pyStartsWith raw_text "OCR Engine Failed" || pyStartsWith raw_text "PaddleOCR Error" then
      (p.1, { base with medications := [raw_text], accuracy_score := 0 })
    else
      let snippet := if 200 < pyLen raw_text then pyTake raw_text 200 ++ "..." else raw_text
      let r1 := { base with raw_text_snippet := snippet, accuracy_score := pyRound1 confidence }
      match env.exn with
      | some e => (p.1, { r1 with medications := ["Critical Analysis Error: " ++ e] })
      | none =>
        let meds := extract_medications_from_text (apply_medical_dictionary_correction raw_text)
        let r2 :=
          if meds = [] then
            { r1 with
              medications := ["Could not extract medicine names. Snippet: " ++ snippet],
              accuracy_score := if confidence < 70 then 35 else r1.accuracy_score }
          else
            { r1 with medications := pySorted meds }
        let r3 :=
          match r2.medications with
          | [] => r2
          | m :: _ =>
            if pyStartsWith m "Could not extract" then r2
            else { r2 with interactions := check_drug_interactions r2.medications }
        (p.1, r3)

/-! ### Shared helper lemmas -/

theorem data_append (a b : String) : (a ++ b).data = a.data ++ b.data := by
  cases a; cases b; rfl

theorem isPrefixOf_append_of {p l : List Char} (m : List Char)
    (h : p.isPrefixOf l = true) : p.isPrefixOf (l ++ m) = true := by
  rw [List.isPrefixOf_iff_prefix] at h ⊢
  exact h.trans (List.prefix_append l m)

theorem pyStartsWith_append (pre rest : String) (p : String)
    (h : p.data.isPrefixOf pre.data = true) : pyStartsWith (pre ++ rest) p = true := by
  unfold pyStartsWith
  rw [data_append]
  exact isPrefixOf_append_of _ h

/-- Two strings built from distinct nonempty literal prefixes differ. -/
theorem ne_of_head_ne {a b : String} (x y : Char) (hx : a.data.head? = some x)
    (hy : b.data.head? = some y) (hxy : x ≠ y) : a ≠ b := by
  intro h
  rw [h, hy] at hx
  exact hxy (Option.some.inj hx).symm

theorem lexLe_total (a b : List Char) : lexLe a b = true ∨ lexLe b a = true := by
  induction a generalizing b with
  | nil => left; rfl
  | cons x xs ih =>
    cases b with
    | nil => right; rfl
    | cons y ys =>
      simp only [lexLe]
      rcases lt_trichotomy x y with h | h | h
      · left; rw [if_pos h]
      · subst h
        simp only [lt_irrefl, if_neg (lt_irrefl x), ite_false]
        exact ih ys
      · right; rw [if_pos h]

theorem lexLe_trans {a b c : List Char} (hab : lexLe a b = true) (hbc : lexLe b c = true) :
    lexLe a c = true := by
  induction a generalizing b c with
  | nil => rfl
  | cons x xs ih =>
    cases b with
    | nil => simp [lexLe] at hab
    | cons y ys =>
      cases c with
      | nil => simp [lexLe] at hbc
      | cons z zs =>
        simp only [lexLe] at hab hbc ⊢
        by_cases hxy : x < y
        · by_cases hyz : y < z
          · rw [if_pos (hxy.trans hyz)]
          · by_cases hzy : z < y
            · simp [if_neg hyz, if_pos hzy] at hbc
            · have : y = z := le_antisymm (not_lt.mp hzy) (not_lt.mp hyz)
              subst this
              rw [if_pos hxy]
        · by_cases hyx : y < x
          · simp [if_neg hxy, if_pos hyx] at hab
          · have hxy2 : x = y := le_antisymm (not_lt.mp hyx) (not_lt.mp hxy)
            subst hxy2
            rw [if_neg hxy, if_neg hxy] at hab
            by_cases hyz : x < z
            · rw [if_pos hyz]
            · by_cases hzy : z < x
              · simp [if_neg hyz, if_pos hzy] at hbc
              · rw [if_neg hyz, if_neg hzy] at hbc ⊢
                exact ih hab hbc

theorem lexLe_antisymm {a b : List Char} (hab : lexLe a b = true) (hba : lexLe b a = true) :
    a = b := by
  induction a generalizing b with
  | nil =>
    cases b with
    | nil => rfl
    | cons y ys => simp [lexLe] at hba
  | cons x xs ih =>
    cases b with
    | nil => simp [lexLe] at hab
    | cons y ys =>
      simp only [lexLe] at hab hba
      by_cases hxy : x < y
      · simp [if_neg (lt_asymm hxy), if_pos hxy] at hba
      · by_cases hyx : y < x
        · simp [if_neg hxy, if_pos hyx] at hab
        · have hxy2 : x = y := le_antisymm (not_lt.mp hyx) (not_lt.mp hxy)
          subst hxy2
          rw [if_neg hxy, if_neg hxy] at hab
          rw [if_neg hxy, if_neg hxy] at hba
          rw [ih hab hba]

instance : IsTotal String pyLe :=
  ⟨fun a b => lexLe_total a.data b.data⟩

instance : IsTrans String pyLe :=
  ⟨fun _ _ _ hab hbc => lexLe_trans hab hbc⟩

theorem pyLe_antisymm {a b : String} (hab : pyLe a b) (hba : pyLe b a) : a = b := by
  obtain ⟨da⟩ := a
  obtain ⟨db⟩ := b
  exact congrArg String.mk (lexLe_antisymm hab hba)

/-- The executable Python order implies Lean's lexicographic order on
strings. -/
theorem pyLe_le {a b : String} (h : pyLe a b) : a ≤ b := by
  rw [String.le_iff_toList_le]
  have : ∀ (u v : List Char), lexLe u v = true → ¬ List.Lex (· < ·) v u := by
    intro u
    induction u with
    | nil => intro v _ hlt; cases hlt
    | cons x xs ih =>
      intro v hle hlt
      cases v with
      | nil => simp [lexLe] at hle
      | cons y ys =>
        simp only [lexLe] at hle
        cases hlt with
        | rel hr =>
          by_cases hxy : x < y
          · exact lt_asymm hxy hr
          · simp [if_neg hxy, if_pos hr] at hle
        | cons htail =>
          simp only [lt_irrefl, ite_false, if_neg (lt_irrefl x)] at hle
          exact ih ys hle htail
  exact not_lt.mp (this a.data b.data h)

theorem pySorted_pair_comm (x y : String) : pySorted [x, y] = pySorted [y, x] := by
  unfold pySorted
  simp only [List.insertionSort, List.orderedInsert]
  rcases lexLe_total x.data y.data with h | h
  · have h' : pyLe x y := h
    by_cases h2 : pyLe y x
    · have hxy : x = y := pyLe_antisymm h' h2
      subst hxy; rfl
    · rw [if_pos h', if_neg h2]
  · have h' : pyLe y x := h
    by_cases h2 : pyLe x y
    · have hxy : x = y := pyLe_antisymm h2 h'
      subst hxy; rfl
    · rw [if_neg h2, if_pos h']

theorem interactionKey_comm (x y : String) : interactionKey x y = interactionKey y x := by
  unfold interactionKey
  rw [pySorted_pair_comm]

theorem keywordStep_pair_comm (x y m : String) :
    keywordStep [x, y] m = keywordStep [y, x] m := by
  have h : ∀ s : String, s ∈ ([x, y] : List String) ↔ s ∈ [y, x] := by
    intro s; simp only [List.mem_pair]; tauto
  unfold keywordStep
  simp only [h]

theorem keywordWarnings_pair (x y : String) :
    keywordWarnings [x, y] = keywordStep [x, y] x ++ keywordStep [x, y] y := by
  simp [keywordWarnings, List.flatMap]

theorem pairWarnings_pair (x y : String) :
    pairWarnings [x, y] = (pairWarnAgainst x y).toList := by
  simp [pairWarnings, List.filterMap]
  cases pairWarnAgainst x y <;> rfl

/-! ### C8: lazy-init-once OCR engine -/

/-- C8: `initialize_ocr_reader` is lazy-init-once: the first call stores
the construction outcome and marks the cache initialized; every later
call returns the cached handle with no state change; after a failed
first initialization the handle is permanently `none`, and recognition
on such a state fails fast with the engine-unavailable sentinel and zero
confidence, without retrying initialization. -/
theorem C8_lazy_init_once (H : Type) (a1 a2 : Option H) (oc : OcrOutcome) :
    (init_ocr_reader a1 (ocrStart (H := H))).1 = ⟨a1, true⟩
    ∧ (init_ocr_reader a1 (ocrStart (H := H))).2 = a1
    ∧ init_ocr_reader a2 (init_ocr_reader a1 (ocrStart (H := H))).1
        = ((init_ocr_reader a1 (ocrStart (H := H))).1, a1)
    ∧ (init_ocr_reader a2 (init_ocr_reader (none : Option H) (ocrStart (H := H))).1).2 = none
    ∧ extract_text_paddle_single_pass a2 oc
          (init_ocr_reader (none : Option H) (ocrStart (H := H))).1
        = ((init_ocr_reader (none : Option H) (ocrStart (H := H))).1,
            ("OCR Engine Failed Initialization.", 0)) := by
  refine ⟨rfl, rfl, rfl, rfl, rfl⟩

/-! ### C9: the metformin-alcohol keyword warning -/

/-- C9: any medication list containing "Metformin" (in any letter case)
receives the metformin-alcohol general warning from
`check_drug_interactions`, even as the only medication. -/
theorem C9_metformin_warning (medications : List String)
    (h : ∃ m ∈ medications, pyLower m = "metformin") :
    ("General Warning: " ++ metforminAlcoholMsg) ∈ check_drug_interactions medications := by
  obtain ⟨m, hm, hlow⟩ := h
  unfold check_drug_interactions
  refine List.mem_append_right _ ?_
  unfold keywordWarnings
  refine List.mem_flatMap.mpr ⟨"metformin", ?_, ?_⟩
  · exact hlow ▸ List.mem_map_of_mem pyLower hm
  · unfold keywordStep
    refine List.mem_append_right _ ?_
    rw [if_pos (by decide)]
    exact List.mem_singleton.mpr rfl

/-- C9 witness: the singleton list ["Metformin"]. -/
theorem C9_witness :
    (∃ m ∈ ["Metformin"], pyLower m = "metformin")
    ∧ ("General Warning: " ++ metforminAlcoholMsg)
        ∈ check_drug_interactions ["Metformin"] :=
  ⟨by decide, C9_metformin_warning ["Metformin"] (by decide)⟩

/-! ### C6: symmetry of `check_drug_interactions` in the input order -/

/-- C6 counterexample: for the configured ibuprofen-lisinopril pair the
formatted warning quotes the medications in input order, so the warning
set for [Ibuprofen, Lisinopril] differs from the one for
[Lisinopril, Ibuprofen]. -/
theorem C6_counterexample :
    ("Interaction (Ibuprofen + Lisinopril): " ++ ibuprofenLisinoprilMsg)
      ∈ check_drug_interactions ["Ibuprofen", "Lisinopril"]
    ∧ ("Interaction (Ibuprofen + Lisinopril): " ++ ibuprofenLisinoprilMsg)
      ∉ check_drug_interactions ["Lisinopril", "Ibuprofen"] := by
  decide

/-- C6 (amended): `check_drug_interactions` is symmetric up to the
displayed name order: the normalized pair key is identical in both input
orders (so the same pair rule fires, with the same stored message), the
two warning lists have equal length, and the keyword warnings are a
permutation of each other; the formatted pair-warning strings themselves
quote the names in input order. -/
theorem C6_pair_symmetry (a b : String) :
    interactionKey (pyLower a) (pyLower b) = interactionKey (pyLower b) (pyLower a)
    ∧ (check_drug_interactions [a, b]).length = (check_drug_interactions [b, a]).length
    ∧ (keywordWarnings [pyLower a, pyLower b]).Perm (keywordWarnings [pyLower b, pyLower a]) := by
  have hkw : (keywordWarnings [pyLower a, pyLower b]).Perm
      (keywordWarnings [pyLower b, pyLower a]) := by
    rw [keywordWarnings_pair, keywordWarnings_pair,
      keywordStep_pair_comm (pyLower a) (pyLower b) (pyLower a),
      keywordStep_pair_comm (pyLower a) (pyLower b) (pyLower b)]
    exact List.perm_append_comm
  refine ⟨interactionKey_comm _ _, ?_, hkw⟩
  unfold check_drug_interactions
  simp only [List.map_cons, List.map_nil]
  rw [List.length_append, List.length_append, pairWarnings_pair, pairWarnings_pair,
    hkw.length_eq]
  congr 1
  unfold pairWarnAgainst
  rw [interactionKey_comm]
  cases lookupMock (interactionKey (pyLower b) (pyLower a)) <;> rfl

/-! ### C10: the statin-grapefruit keyword warning is unreachable -/

theorem pairWarnings_head (l : List String) (w : String) (hw : w ∈ pairWarnings l) :
    w.data.head? = some 'I' := by
  induction l with
  | nil => cases hw
  | cons m rest ih =>
    rcases List.mem_append.mp hw with h1 | h2
    · obtain ⟨b, _, hb⟩ := List.mem_filterMap.mp h1
      unfold pairWarnAgainst at hb
      obtain ⟨msg, _, rfl⟩ := Option.map_eq_some'.mp hb
      rw [data_append]
      rfl
    · exact ih h2

/-- C10: on any medication list produced by the resolver (every element
a capitalized canonical dictionary key), `check_drug_interactions` never
returns the statin-grapefruit warning: the keyword rule needs the
literal element "grapefruit" or "juice", and no canonical key lowercases
to either. -/
theorem C10_statin_grapefruit_unreachable (medications : List String)
    (h : ∀ m ∈ medications, m ∈ MEDICATION_DICT.map (fun kv => pyCapitalize kv.1)) :
    ("Major Alert: " ++ statinGrapefruitMsg) ∉ check_drug_interactions medications := by
  intro hmem
  have hkeys : ∀ x ∈ medications.map pyLower, x ∈ MEDICATION_DICT.map (fun kv => kv.1) := by
    intro x hx
    obtain ⟨m, hm, rfl⟩ := List.mem_map.mp hx
    obtain ⟨kv, hkv, rfl⟩ := List.mem_map.mp (h m hm)
    have hcap : ∀ k ∈ MEDICATION_DICT.map (fun kv => Prod.fst kv),
        pyLower (pyCapitalize k) = k := by decide
    rw [hcap kv.1 (List.mem_map_of_mem _ hkv)]
    exact List.mem_map_of_mem _ hkv
  have hng : "grapefruit" ∉ medications.map pyLower := fun hx => by
    have hk := hkeys _ hx
    revert hk
    decide
  have hnj : "juice" ∉ medications.map pyLower := fun hx => by
    have hk := hkeys _ hx
    revert hk
    decide
  unfold check_drug_interactions at hmem
  rcases List.mem_append.mp hmem with hp | hk
  · have hhead := pairWarnings_head _ _ hp
    rw [data_append] at hhead
    exact absurd hhead (by decide)
  · obtain ⟨m, _, hstep⟩ := List.mem_flatMap.mp hk
    unfold keywordStep at hstep
    rcases List.mem_append.mp hstep with h1 | h2
    · by_cases hc : isSubstr "statin".data m.data = true ∧
          ("grapefruit" ∈ medications.map pyLower ∨ "juice" ∈ medications.map pyLower)
      · rcases hc.2 with hg | hj
        · exact hng hg
        · exact hnj hj
      · rw [if_neg hc] at h1
        cases h1
    · by_cases hc : isSubstr "metformin".data m.data = true
      · rw [if_pos hc] at h2
        exact absurd (List.mem_singleton.mp h2) (by decide)
      · rw [if_neg hc] at h2
        cases h2

/-- C10 witness: the singleton resolver output ["Atorvastatin"]. -/
theorem C10_witness :
    (∀ m ∈ ["Atorvastatin"], m ∈ MEDICATION_DICT.map (fun kv => pyCapitalize kv.1))
    ∧ ("Major Alert: " ++ statinGrapefruitMsg)
        ∉ check_drug_interactions ["Atorvastatin"] :=
  ⟨by decide, C10_statin_grapefruit_unreachable ["Atorvastatin"] (by decide)⟩

/-! ### Accessors for the values the analyzer computes on the OCR-success
path, mirroring the locals of `analyze_prescription_image` -/

/-- The `raw_text` local of `analyze_prescription_image`. -/
def rawOf {H : Type} (env : Env H) (s : OcrState H) : String :=
  (extract_text_paddle_single_pass env.attempt env.ocr s).2.1

/-- The `confidence` local of `analyze_prescription_image`. -/
def confOf {H : Type} (env : Env H) (s : OcrState H) : ℚ :=
  (extract_text_paddle_single_pass env.attempt env.ocr s).2.2

/-- The `raw_text_snippet` value of `analyze_prescription_image`. -/
def snippetOf {H : Type} (env : Env H) (s : OcrState H) : String :=
  if 200 < pyLen (rawOf env s) then pyTake (rawOf env s) 200 ++ "..." else rawOf env s

/-- The `medications` local of `analyze_prescription_image` (resolver
output on the corrected text). -/
def medsOf {H : Type} (env : Env H) (s : OcrState H) : List String :=
  extract_medications_from_text (apply_medical_dictionary_correction (rawOf env s))

/-- Reduction of `analyze_prescription_image` on the path where the file
exists, the OCR text carries no error sentinel, and no internal
exception fires. -/
theorem analyze_ok {H : Type} (env : Env H) (s : OcrState H)
    (hex : env.fileExists = true)
    (hpre : (pyStartsWith (rawOf env s) "OCR Engine Failed"
        || pyStartsWith (rawOf env s) "PaddleOCR Error") = false)
    (hexn : env.exn = none) :
    (analyze_prescription_image env s).2 =
      if medsOf env s = [] then
        { medications := ["Could not extract medicine names. Snippet: " ++ snippetOf env s],
          interactions := [],
          raw_text_snippet := snippetOf env s,
          accuracy_score := if confOf env s < 70 then 35 else pyRound1 (confOf env s) }
      else
        { medications := pySorted (medsOf env s),
          interactions :=
            match pySorted (medsOf env s) with
            | [] => []
            | m :: _ =>
              if pyStartsWith m "Could not extract" then []
              else check_drug_interactions (pySorted (medsOf env s)),
          raw_text_snippet := snippetOf env s,
          accuracy_score := pyRound1 (confOf env s) } := by
  obtain ⟨fe, att, oc, ex⟩ := env
  subst hex
  subst hexn
  unfold rawOf at hpre
  unfold medsOf snippetOf confOf rawOf
  dsimp only at hpre ⊢
  unfold analyze_prescription_image
  dsimp only
  rw [if_neg (by decide)]
  rw [hpre, if_neg (by decide)]
  dsimp only
  by_cases hm : extract_medications_from_text (apply_medical_dictionary_correction
      (extract_text_paddle_single_pass att oc s).2.1) = []
  · rw [if_pos hm, if_pos hm]
    dsimp only
    rw [if_pos (pyStartsWith_append _ _ _ (by decide))]
  · rw [if_neg hm, if_neg hm]
    dsimp only
    rcases hps : pySorted (extract_medications_from_text (apply_medical_dictionary_correction
        (extract_text_paddle_single_pass att oc s).2.1)) with _ | ⟨m, tail⟩
    · rfl
    · dsimp only
      by_cases hsw : pyStartsWith m "Could not extract" = true
      · rw [if_pos hsw, if_pos hsw]
      · rw [if_neg hsw, if_neg hsw]

/-! ### Evaluation helpers for concrete runs (ℚ arithmetic does not
kernel-reduce, so score values are computed by `norm_num`) -/

theorem ratFloor_eq (q : ℚ) : q.floor = ⌊q⌋ := by
  rw [Rat.floor_def', Rat.floor_def]

theorem pyRound1_int (n : ℤ) : pyRound1 (n : ℚ) = n := by
  unfold pyRound1 roundHE
  rw [ratFloor_eq]
  have h1 : (10 : ℚ) * n = ((10 * n : ℤ) : ℚ) := by push_cast; ring
  rw [h1, Int.floor_intCast]
  rw [if_pos (by push_cast; norm_num)]
  push_cast
  ring

theorem pyRound1_ofNat (n : ℕ) : pyRound1 (n : ℚ) = n := by
  exact_mod_cast pyRound1_int n

/-- Reduction of `analyze_prescription_image` when the input file does
not exist. -/
theorem analyze_no_file {H : Type} (env : Env H) (s : OcrState H)
    (hex : env.fileExists = false) :
    (analyze_prescription_image env s).2 =
      { medications := ["Error: Input file not found on server."],
        interactions := [],
        raw_text_snippet := "Analysis Failed.",
        accuracy_score := 0 } := by
  obtain ⟨fe, att, oc, ex⟩ := env
  subst hex
  rfl

theorem guard_or_right {r : String} (h2 : pyStartsWith r "PaddleOCR Error" = true) :
    (pyStartsWith r "OCR Engine Failed" || pyStartsWith r "PaddleOCR Error") = true := by
  rw [h2, Bool.or_true]

/-- Reduction of `extract_text_paddle_single_pass` when the engine
handle is (or becomes) `None`. -/
theorem extract_engine_failed {H : Type} (att : Option H) (oc : OcrOutcome) (s : OcrState H)
    (hinit : (init_ocr_reader att s).2 = none) :
    extract_text_paddle_single_pass att oc s
      = ((init_ocr_reader att s).1, ("OCR Engine Failed Initialization.", 0)) := by
  unfold extract_text_paddle_single_pass
  dsimp only
  rw [hinit]

/-- Reduction of `extract_text_paddle_single_pass` when the recognition
call raises. -/
theorem extract_ocr_error {H : Type} (att : Option H) (s : OcrState H) (h : H)
    (hinit : (init_ocr_reader att s).2 = some h) (e : String) :
    extract_text_paddle_single_pass att (Except.error e) s
      = ((init_ocr_reader att s).1, ("PaddleOCR Error: " ++ e, 0)) := by
  unfold extract_text_paddle_single_pass
  dsimp only
  rw [hinit]

theorem guard_or_left {r : String} (h1 : pyStartsWith r "OCR Engine Failed" = true) :
    (pyStartsWith r "OCR Engine Failed" || pyStartsWith r "PaddleOCR Error") = true := by
  rw [h1, Bool.true_or]

/-- The raw text returned when the engine handle is `None`. -/
theorem extract_engine_failed_raw {H : Type} (att : Option H) (oc : OcrOutcome)
    (s : OcrState H) (hinit : (init_ocr_reader att s).2 = none) :
    (extract_text_paddle_single_pass att oc s).2.1 = "OCR Engine Failed Initialization." := by
  rw [extract_engine_failed att oc s hinit]

/-- The raw text returned when the recognition call raises. -/
theorem extract_ocr_error_raw {H : Type} (att : Option H) (s : OcrState H) (h : H)
    (hinit : (init_ocr_reader att s).2 = some h) (e : String) :
    (extract_text_paddle_single_pass att (Except.error e) s).2.1
      = "PaddleOCR Error: " ++ e := by
  rw [extract_ocr_error att s h hinit e]

/-- Reduction of `analyze_prescription_image` when the engine handle is
(or becomes) `None`. -/
theorem analyze_engine_failed {H : Type} (env : Env H) (s : OcrState H)
    (hex : env.fileExists = true)
    (hinit : (init_ocr_reader env.attempt s).2 = none) :
    (analyze_prescription_image env s).2 =
      { medications := ["OCR Engine Failed Initialization."],
        interactions := [],
        raw_text_snippet := "Analysis Failed.",
        accuracy_score := 0 } := by
  obtain ⟨fe, att, oc, ex⟩ := env
  subst hex
  unfold analyze_prescription_image
  dsimp only at hinit ⊢
  rw [if_neg (by decide)]
  rw [extract_engine_failed_raw att oc s hinit]
  rw [if_pos (guard_or_left (by decide))]

/-- Reduction of `analyze_prescription_image` when the recognition call
raises. -/
theorem analyze_ocr_error {H : Type} (env : Env H) (s : OcrState H)
    (hex : env.fileExists = true) (h : H)
    (hinit : (init_ocr_reader env.attempt s).2 = some h)
    (e : String) (hoc : env.ocr = Except.error e) :
    (analyze_prescription_image env s).2 =
      { medications := ["PaddleOCR Error: " ++ e],
        interactions := [],
        raw_text_snippet := "Analysis Failed.",
        accuracy_score := 0 } := by
  obtain ⟨fe, att, oc, ex⟩ := env
  subst hex
  subst hoc
  unfold analyze_prescription_image
  dsimp only at hinit ⊢
  rw [if_neg (by decide)]
  rw [extract_ocr_error_raw att s h hinit e]
  rw [if_pos (guard_or_right (pyStartsWith_append "PaddleOCR Error: " e _ (by decide)))]

/-- Reduction of `analyze_prescription_image` when an internal exception
fires inside the `try` block after the snippet and score assignments:
the handler replaces `medications` only. -/
theorem analyze_exn {H : Type} (env : Env H) (s : OcrState H)
    (hex : env.fileExists = true)
    (hpre : (pyStartsWith (rawOf env s) "OCR Engine Failed"
        || pyStartsWith (rawOf env s) "PaddleOCR Error") = false)
    (e : String) (hexn : env.exn = some e) :
    (analyze_prescription_image env s).2 =
      { medications := ["Critical Analysis Error: " ++ e],
        interactions := [],
        raw_text_snippet := snippetOf env s,
        accuracy_score := pyRound1 (confOf env s) } := by
  obtain ⟨fe, att, oc, ex⟩ := env
  subst hex
  subst hexn
  unfold rawOf at hpre
  unfold snippetOf confOf rawOf
  dsimp only at hpre ⊢
  unfold analyze_prescription_image
  dsimp only
  rw [if_neg (by decide)]
  rw [hpre, if_neg (by decide)]

/-! ### C2: the empty-resolver case -/

/-- C2 counterexample: with OCR confidence 80 (at least the fixed floor
of 70) and no medication matched, the score stays at the rounded
confidence 80.0, not 35.0 — the 35.0 fallback is not applied
"regardless of the OCR confidence". -/
theorem C2_counterexample :
    (analyze_prescription_image (H := Unit)
        ⟨true, some (), Except.ok [("no rx", 4/5)], none⟩ ocrStart).2.medications
      = ["Could not extract medicine names. Snippet: no rx"]
    ∧ (analyze_prescription_image (H := Unit)
        ⟨true, some (), Except.ok [("no rx", 4/5)], none⟩ ocrStart).2.accuracy_score = 80
    ∧ (80 : ℚ) ≠ 35 := by
  have hok := analyze_ok (H := Unit)
    ⟨true, some (), Except.ok [("no rx", 4/5)], none⟩ ocrStart rfl (by decide) rfl
  rw [if_pos (by decide)] at hok
  have hconf : confOf (H := Unit)
      ⟨true, some (), Except.ok [("no rx", 4/5)], none⟩ ocrStart = 80 := by
    unfold confOf extract_text_paddle_single_pass init_ocr_reader ocrStart
    norm_num
  rw [hok]
  refine ⟨by decide, ?_, by norm_num⟩
  dsimp only
  rw [hconf, if_neg (by norm_num)]
  rw [show (80 : ℚ) = ((80 : ℕ) : ℚ) by norm_num, pyRound1_ofNat]

/-- C2 (amended): when the resolver returns the empty set on the OCR
success path, `medications` is the single diagnostic element embedding
the snippet of the raw text, and `accuracyScore` is exactly 35.0 when
the OCR confidence is below 70, and the rounded confidence otherwise. -/
theorem C2_no_meds_result {H : Type} (env : Env H) (s : OcrState H)
    (hex : env.fileExists = true)
    (hpre : (pyStartsWith (rawOf env s) "OCR Engine Failed"
        || pyStartsWith (rawOf env s) "PaddleOCR Error") = false)
    (hexn : env.exn = none)
    (hmeds : medsOf env s = []) :
    (analyze_prescription_image env s).2.medications
      = ["Could not extract medicine names. Snippet: " ++ snippetOf env s]
    ∧ (analyze_prescription_image env s).2.accuracy_score
      = (if confOf env s < 70 then 35 else pyRound1 (confOf env s)) := by
  rw [analyze_ok env s hex hpre hexn, if_pos hmeds]
  exact ⟨rfl, rfl⟩

/-- C2 witness: OCR text "no rx" with confidence 50. -/
theorem C2_witness :
    medsOf (H := Unit) ⟨true, some (), Except.ok [("no rx", 1/2)], none⟩ ocrStart = []
    ∧ ((analyze_prescription_image (H := Unit)
          ⟨true, some (), Except.ok [("no rx", 1/2)], none⟩ ocrStart).2.medications
        = ["Could not extract medicine names. Snippet: "
            ++ snippetOf (H := Unit) ⟨true, some (), Except.ok [("no rx", 1/2)], none⟩ ocrStart]
      ∧ (analyze_prescription_image (H := Unit)
          ⟨true, some (), Except.ok [("no rx", 1/2)], none⟩ ocrStart).2.accuracy_score
        = (if confOf (H := Unit) ⟨true, some (), Except.ok [("no rx", 1/2)], none⟩ ocrStart < 70
            then 35
            else pyRound1 (confOf (H := Unit)
              ⟨true, some (), Except.ok [("no rx", 1/2)], none⟩ ocrStart))) :=
  ⟨by decide, C2_no_meds_result _ _ rfl (by decide) rfl (by decide)⟩

/-! ### C3: no confidence boost exists in the code -/

/-- C3 counterexample: resolver finds Ibuprofen, OCR confidence is
50 (below 70); the claimed boosted score would be min (50+40) 90 = 90,
but the result's score is the plain rounded confidence 50. -/
theorem C3_counterexample :
    (analyze_prescription_image (H := Unit)
        ⟨true, some (), Except.ok [("ibu", 1/2)], none⟩ ocrStart).2.medications
      = ["Ibuprofen"]
    ∧ ((1 : ℚ)/2) * 100 < 70
    ∧ (analyze_prescription_image (H := Unit)
        ⟨true, some (), Except.ok [("ibu", 1/2)], none⟩ ocrStart).2.accuracy_score = 50
    ∧ (50 : ℚ) ≠ min ((1/2 : ℚ) * 100 + 40) 90 := by
  have hok := analyze_ok (H := Unit)
    ⟨true, some (), Except.ok [("ibu", 1/2)], none⟩ ocrStart rfl (by decide) rfl
  rw [if_neg (by decide)] at hok
  have hconf : confOf (H := Unit)
      ⟨true, some (), Except.ok [("ibu", 1/2)], none⟩ ocrStart = 50 := by
    unfold confOf extract_text_paddle_single_pass init_ocr_reader ocrStart
    norm_num
  rw [hok]
  refine ⟨by decide, by norm_num, ?_, by norm_num⟩
  dsimp only
  rw [hconf, show (50 : ℚ) = ((50 : ℕ) : ℚ) by norm_num, pyRound1_ofNat]

/-- C3 (amended): whenever the resolver finds at least one medication on
the OCR success path, the final score is the rounded OCR confidence —
no +40 boost or 90 cap is applied, whatever the confidence. -/
theorem C3_meds_found_score {H : Type} (env : Env H) (s : OcrState H)
    (hex : env.fileExists = true)
    (hpre : (pyStartsWith (rawOf env s) "OCR Engine Failed"
        || pyStartsWith (rawOf env s) "PaddleOCR Error") = false)
    (hexn : env.exn = none)
    (hmeds : medsOf env s ≠ []) :
    (analyze_prescription_image env s).2.accuracy_score = pyRound1 (confOf env s) := by
  rw [analyze_ok env s hex hpre hexn, if_neg hmeds]

/-- C3 witness: OCR text "ibu" with confidence 50. -/
theorem C3_witness :
    medsOf (H := Unit) ⟨true, some (), Except.ok [("ibu", 1/2)], none⟩ ocrStart ≠ []
    ∧ (analyze_prescription_image (H := Unit)
        ⟨true, some (), Except.ok [("ibu", 1/2)], none⟩ ocrStart).2.accuracy_score
      = pyRound1 (confOf (H := Unit) ⟨true, some (), Except.ok [("ibu", 1/2)], none⟩ ocrStart) :=
  ⟨by decide, C3_meds_found_score _ _ rfl (by decide) rfl (by decide)⟩

/-! ### C4: successful medication lists -/

/-- C4: on a successful analysis (resolver found at least one
medication), the returned medications list is sorted lexicographically,
has no duplicates, and every element is the capitalized canonical name
of a dictionary entry. -/
theorem C4_medications_canonical_sorted {H : Type} (env : Env H) (s : OcrState H)
    (hex : env.fileExists = true)
    (hpre : (pyStartsWith (rawOf env s) "OCR Engine Failed"
        || pyStartsWith (rawOf env s) "PaddleOCR Error") = false)
    (hexn : env.exn = none)
    (hmeds : medsOf env s ≠ []) :
    List.Sorted (· ≤ ·) (analyze_prescription_image env s).2.medications
    ∧ (analyze_prescription_image env s).2.medications.Nodup
    ∧ ∀ m ∈ (analyze_prescription_image env s).2.medications,
        ∃ kv ∈ MEDICATION_DICT, m = pyCapitalize kv.1 := by
  have hmeq : (analyze_prescription_image env s).2.medications = pySorted (medsOf env s) := by
    rw [analyze_ok env s hex hpre hexn, if_neg hmeds]
  rw [hmeq]
  have hsub : (medsOf env s).Sublist (MEDICATION_DICT.map (fun kv => pyCapitalize kv.1)) := by
    unfold medsOf extract_medications_from_text
    exact List.Sublist.map _ (List.filter_sublist _)
  refine ⟨?_, ?_, ?_⟩
  · exact (List.sorted_insertionSort pyLe (medsOf env s)).imp (fun h => pyLe_le h)
  · exact ((List.perm_insertionSort pyLe (medsOf env s)).symm).nodup
      (hsub.nodup (by decide))
  · intro m hm
    have hm2 : m ∈ medsOf env s := (List.mem_insertionSort pyLe).mp hm
    unfold medsOf extract_medications_from_text at hm2
    obtain ⟨kv, hkv, rfl⟩ := List.mem_map.mp hm2
    exact ⟨kv, List.mem_of_mem_filter hkv, rfl⟩

/-- C4 witness: OCR text "ibu" with confidence 50 resolves to
["Ibuprofen"]. -/
theorem C4_witness :
    medsOf (H := Unit) ⟨true, some (), Except.ok [("ibu", 1/2)], none⟩ ocrStart ≠ []
    ∧ (List.Sorted (· ≤ ·) (analyze_prescription_image (H := Unit)
          ⟨true, some (), Except.ok [("ibu", 1/2)], none⟩ ocrStart).2.medications
      ∧ (analyze_prescription_image (H := Unit)
          ⟨true, some (), Except.ok [("ibu", 1/2)], none⟩ ocrStart).2.medications.Nodup
      ∧ ∀ m ∈ (analyze_prescription_image (H := Unit)
          ⟨true, some (), Except.ok [("ibu", 1/2)], none⟩ ocrStart).2.medications,
          ∃ kv ∈ MEDICATION_DICT, m = pyCapitalize kv.1) :=
  ⟨by decide, C4_medications_canonical_sorted _ _ rfl (by decide) rfl (by decide)⟩

/-! ### Score case analysis and bounds (C5) -/

/-- Reduction of `analyze_prescription_image` when the extracted text
starts with one of the error sentinels. -/
theorem analyze_sentinel {H : Type} (env : Env H) (s : OcrState H)
    (hex : env.fileExists = true)
    (hpre : (pyStartsWith (rawOf env s) "OCR Engine Failed"
        || pyStartsWith (rawOf env s) "PaddleOCR Error") = true) :
    (analyze_prescription_image env s).2 =
      { medications := [rawOf env s],
        interactions := [],
        raw_text_snippet := "Analysis Failed.",
        accuracy_score := 0 } := by
  obtain ⟨fe, att, oc, ex⟩ := env
  subst hex
  unfold rawOf at hpre ⊢
  dsimp only at hpre ⊢
  unfold analyze_prescription_image
  dsimp only
  rw [if_neg (by decide)]
  rw [if_pos hpre]

/-- Every returned score is 0, 35, or the rounded OCR confidence. -/
theorem analyze_score_cases {H : Type} (env : Env H) (s : OcrState H) :
    (analyze_prescription_image env s).2.accuracy_score = 0
    ∨ (analyze_prescription_image env s).2.accuracy_score = 35
    ∨ (analyze_prescription_image env s).2.accuracy_score = pyRound1 (confOf env s) := by
  by_cases hfe : env.fileExists = true
  · by_cases hpre : (pyStartsWith (rawOf env s) "OCR Engine Failed"
        || pyStartsWith (rawOf env s) "PaddleOCR Error") = true
    · left
      rw [analyze_sentinel env s hfe hpre]
    · have hpre' : (pyStartsWith (rawOf env s) "OCR Engine Failed"
          || pyStartsWith (rawOf env s) "PaddleOCR Error") = false :=
        Bool.eq_false_iff.mpr hpre
      cases hexn : env.exn with
      | some e =>
        right; right
        rw [analyze_exn env s hfe hpre' e hexn]
      | none =>
        rw [analyze_ok env s hfe hpre' hexn]
        by_cases hm : medsOf env s = []
        · rw [if_pos hm]
          dsimp only
          by_cases hc : confOf env s < 70
          · right; left
            rw [if_pos hc]
          · right; right
            rw [if_neg hc]
        · right; right
          rw [if_neg hm]
  · left
    rw [analyze_no_file env s (Bool.eq_false_iff.mpr hfe)]

theorem confOf_bounds {H : Type} (env : Env H) (s : OcrState H)
    (hok : ∀ lines, env.ocr = Except.ok lines → ∀ x ∈ lines, 0 ≤ x.2 ∧ x.2 ≤ 1) :
    0 ≤ confOf env s ∧ confOf env s ≤ 100 := by
  obtain ⟨fe, att, oc, ex⟩ := env
  dsimp only at hok
  unfold confOf extract_text_paddle_single_pass
  dsimp only
  cases hi : (init_ocr_reader att s).2 with
  | none => norm_num
  | some h =>
    cases oc with
    | error e => norm_num
    | ok lines =>
      dsimp only
      have hlines := hok lines rfl
      by_cases hl : (lines.map Prod.snd).length = 0
      · rw [if_pos hl]
        norm_num
      · rw [if_neg hl]
        have hlen : (0 : ℚ) < ((lines.map Prod.snd).length : ℚ) := by
          have := Nat.pos_of_ne_zero hl
          exact_mod_cast this
        have hsum0 : 0 ≤ (lines.map Prod.snd).sum := by
          apply List.sum_nonneg
          intro x hx
          obtain ⟨p, hp, rfl⟩ := List.mem_map.mp hx
          exact (hlines p hp).1
        have hsum1 : (lines.map Prod.snd).sum ≤ ((lines.map Prod.snd).length : ℚ) := by
          have h2 := List.sum_le_card_nsmul (lines.map Prod.snd) 1 (fun x hx => by
            obtain ⟨p, hp, rfl⟩ := List.mem_map.mp hx
            exact (hlines p hp).2)
          simpa using h2
        have havg : (lines.map Prod.snd).sum / ((lines.map Prod.snd).length : ℚ) ≤ 1 :=
          (div_le_one hlen).mpr hsum1
        have havg0 : 0 ≤ (lines.map Prod.snd).sum / ((lines.map Prod.snd).length : ℚ) :=
          div_nonneg hsum0 (le_of_lt hlen)
        constructor
        · nlinarith
        · nlinarith

theorem pyRound1_bounds (q : ℚ) (h0 : 0 ≤ q) (h1 : q ≤ 100) :
    0 ≤ pyRound1 q ∧ pyRound1 q ≤ 100 := by
  unfold pyRound1 roundHE
  dsimp only
  rw [ratFloor_eq]
  have hf1 : ((⌊10 * q⌋ : ℚ)) ≤ 10 * q := Int.floor_le _
  have hf2 : (10 * q : ℚ) < ⌊10 * q⌋ + 1 := Int.lt_floor_add_one _
  have hq0 : (0 : ℚ) ≤ 10 * q := by linarith
  have hq1 : (10 * q : ℚ) ≤ 1000 := by linarith
  have hfl0 : (0 : ℤ) ≤ ⌊10 * q⌋ := Int.floor_nonneg.mpr hq0
  have hfl0q : (0 : ℚ) ≤ (⌊10 * q⌋ : ℚ) := by exact_mod_cast hfl0
  have hfl1 : (⌊10 * q⌋ : ℚ) ≤ 1000 := by linarith
  have hplus : (1 : ℚ)/2 ≤ 10 * q - ⌊10 * q⌋ → ((⌊10 * q⌋ + 1 : ℤ) : ℚ) ≤ 1000 := by
    intro hh
    have hlt : (⌊10 * q⌋ : ℚ) < 1000 := by linarith
    have hltz : ⌊10 * q⌋ < 1000 := by exact_mod_cast hlt
    have : ⌊10 * q⌋ + 1 ≤ 1000 := hltz
    exact_mod_cast this
  split_ifs with ha hb hc
  · constructor
    · positivity
    · rw [div_le_iff (by norm_num : (0:ℚ) < 10)]
      push_cast
      linarith
  · constructor
    · positivity
    · rw [div_le_iff (by norm_num : (0:ℚ) < 10)]
      have := hplus (by linarith)
      push_cast at this ⊢
      linarith
  · constructor
    · positivity
    · rw [div_le_iff (by norm_num : (0:ℚ) < 10)]
      push_cast
      linarith
  · constructor
    · positivity
    · rw [div_le_iff (by norm_num : (0:ℚ) < 10)]
      have := hplus (by linarith)
      push_cast at this ⊢
      linarith

/-- C5 counterexample: a single recognized line with (legitimate)
confidence 1.0 yields accuracyScore 100.0, outside the claimed
[0.0, 99.9] interval — the code never clamps to 99.9. -/
theorem C5_counterexample :
    (∀ x ∈ [(("ibu" : String), (1 : ℚ))], 0 ≤ x.2 ∧ x.2 ≤ 1)
    ∧ (analyze_prescription_image (H := Unit)
        ⟨true, some (), Except.ok [("ibu", 1)], none⟩ ocrStart).2.accuracy_score = 100
    ∧ ¬((analyze_prescription_image (H := Unit)
        ⟨true, some (), Except.ok [("ibu", 1)], none⟩ ocrStart).2.accuracy_score ≤ 999/10) := by
  have hok := analyze_ok (H := Unit)
    ⟨true, some (), Except.ok [("ibu", 1)], none⟩ ocrStart rfl (by decide) rfl
  rw [if_neg (by decide)] at hok
  have hconf : confOf (H := Unit)
      ⟨true, some (), Except.ok [("ibu", 1)], none⟩ ocrStart = 100 := by
    unfold confOf extract_text_paddle_single_pass init_ocr_reader ocrStart
    norm_num
  have hscore : (analyze_prescription_image (H := Unit)
      ⟨true, some (), Except.ok [("ibu", 1)], none⟩ ocrStart).2.accuracy_score = 100 := by
    rw [hok]
    dsimp only
    rw [hconf, show (100 : ℚ) = ((100 : ℕ) : ℚ) by norm_num, pyRound1_ofNat]
  refine ⟨?_, hscore, ?_⟩
  · intro x hx
    rcases List.mem_singleton.mp hx with rfl
    norm_num
  · rw [hscore]
    norm_num

/-- C5 (amended): assuming every line confidence lies in [0, 1], the
returned accuracyScore lies in [0.0, 100.0] (100.0 is attainable, so the
claimed 99.9 upper bound does not hold) and is always an exact multiple
of one tenth. -/
theorem C5_score_range {H : Type} (env : Env H) (s : OcrState H)
    (hok : ∀ lines, env.ocr = Except.ok lines → ∀ x ∈ lines, 0 ≤ x.2 ∧ x.2 ≤ 1) :
    0 ≤ (analyze_prescription_image env s).2.accuracy_score
    ∧ (analyze_prescription_image env s).2.accuracy_score ≤ 100
    ∧ ∃ n : ℤ, (analyze_prescription_image env s).2.accuracy_score = (n : ℚ) / 10 := by
  rcases analyze_score_cases env s with h | h | h <;> rw [h]
  · exact ⟨le_refl 0, by norm_num, 0, by norm_num⟩
  · exact ⟨by norm_num, by norm_num, 350, by norm_num⟩
  · obtain ⟨hc0, hc1⟩ := confOf_bounds env s hok
    obtain ⟨hr0, hr1⟩ := pyRound1_bounds _ hc0 hc1
    exact ⟨hr0, hr1, roundHE (10 * confOf env s), rfl⟩

/-- C5 witness: the concrete run with line confidence 1/2. -/
theorem C5_witness :
    (∀ lines, (Except.ok [(("ibu" : String), (1/2 : ℚ))] : OcrOutcome) = Except.ok lines →
      ∀ x ∈ lines, 0 ≤ x.2 ∧ x.2 ≤ 1)
    ∧ (0 ≤ (analyze_prescription_image (H := Unit)
          ⟨true, some (), Except.ok [("ibu", 1/2)], none⟩ ocrStart).2.accuracy_score
      ∧ (analyze_prescription_image (H := Unit)
          ⟨true, some (), Except.ok [("ibu", 1/2)], none⟩ ocrStart).2.accuracy_score ≤ 100
      ∧ ∃ n : ℤ, (analyze_prescription_image (H := Unit)
          ⟨true, some (), Except.ok [("ibu", 1/2)], none⟩ ocrStart).2.accuracy_score
            = (n : ℚ) / 10) :=
  ⟨fun lines h x hx => by
      obtain rfl : [(("ibu" : String), (1/2 : ℚ))] = lines := Except.ok.inj h
      rcases List.mem_singleton.mp hx with rfl
      norm_num,
    C5_score_range _ _ (fun lines h x hx => by
      obtain rfl : [(("ibu" : String), (1/2 : ℚ))] = lines := Except.ok.inj h
      rcases List.mem_singleton.mp hx with rfl
      norm_num)⟩

/-! ### C1: graceful failure and its one exception -/

/-- C1 counterexample: an internal exception raised after the confidence
assignment (for example by the logging call) yields the Critical
Analysis Error diagnostic with empty interactions, but the score keeps
the already-assigned value 50.0 instead of the claimed 0.0. -/
theorem C1_counterexample :
    (analyze_prescription_image (H := Unit)
        ⟨true, some (), Except.ok [("scan", 1/2)], some "boom"⟩ ocrStart).2.medications
      = ["Critical Analysis Error: boom"]
    ∧ (analyze_prescription_image (H := Unit)
        ⟨true, some (), Except.ok [("scan", 1/2)], some "boom"⟩ ocrStart).2.interactions = []
    ∧ (analyze_prescription_image (H := Unit)
        ⟨true, some (), Except.ok [("scan", 1/2)], some "boom"⟩ ocrStart).2.accuracy_score = 50
    ∧ (50 : ℚ) ≠ 0 := by
  have hexn := analyze_exn (H := Unit)
    ⟨true, some (), Except.ok [("scan", 1/2)], some "boom"⟩ ocrStart rfl (by decide) "boom" rfl
  have hconf : confOf (H := Unit)
      ⟨true, some (), Except.ok [("scan", 1/2)], some "boom"⟩ ocrStart = 50 := by
    unfold confOf extract_text_paddle_single_pass init_ocr_reader ocrStart
    norm_num
  rw [hexn]
  refine ⟨rfl, rfl, ?_, by norm_num⟩
  dsimp only
  rw [hconf, show (50 : ℚ) = ((50 : ℕ) : ℚ) by norm_num, pyRound1_ofNat]

/-- C1 (amended): `analyze_prescription_image` is total and encodes
every error condition into `medications[0]` with a recognizable marker
and empty interactions.  For a missing file, an unavailable engine, and
an OCR failure the score is 0.0; for an internal exception raised after
the confidence assignment the handler only replaces `medications`, so
the score keeps the already-assigned rounded confidence. -/
theorem C1_error_handling {H : Type} (env : Env H) (s : OcrState H) :
    (env.fileExists = false →
      (analyze_prescription_image env s).2.medications
          = ["Error: Input file not found on server."]
      ∧ (analyze_prescription_image env s).2.interactions = []
      ∧ (analyze_prescription_image env s).2.accuracy_score = 0)
    ∧ (env.fileExists = true → (init_ocr_reader env.attempt s).2 = none →
      (analyze_prescription_image env s).2.medications = ["OCR Engine Failed Initialization."]
      ∧ (analyze_prescription_image env s).2.interactions = []
      ∧ (analyze_prescription_image env s).2.accuracy_score = 0)
    ∧ (∀ (h : H) (e : String), env.fileExists = true →
        (init_ocr_reader env.attempt s).2 = some h → env.ocr = Except.error e →
      (analyze_prescription_image env s).2.medications = ["PaddleOCR Error: " ++ e]
      ∧ (analyze_prescription_image env s).2.interactions = []
      ∧ (analyze_prescription_image env s).2.accuracy_score = 0)
    ∧ (∀ e : String, env.fileExists = true →
        (pyStartsWith (rawOf env s) "OCR Engine Failed"
          || pyStartsWith (rawOf env s) "PaddleOCR Error") = false →
        env.exn = some e →
      (analyze_prescription_image env s).2.medications = ["Critical Analysis Error: " ++ e]
      ∧ (analyze_prescription_image env s).2.interactions = []
      ∧ (analyze_prescription_image env s).2.accuracy_score = pyRound1 (confOf env s)) := by
  refine ⟨fun h1 => ?_, fun h1 h2 => ?_, fun h e h1 h2 h3 => ?_, fun e h1 h2 h3 => ?_⟩
  · rw [analyze_no_file env s h1]
    exact ⟨rfl, rfl, rfl⟩
  · rw [analyze_engine_failed env s h1 h2]
    exact ⟨rfl, rfl, rfl⟩
  · rw [analyze_ocr_error env s h1 h h2 e h3]
    exact ⟨rfl, rfl, rfl⟩
  · rw [analyze_exn env s h1 h2 e h3]
    exact ⟨rfl, rfl, rfl⟩

/-- C1 witness: the missing-file condition. -/
theorem C1_witness :
    ((⟨false, none, Except.ok [], none⟩ : Env Unit).fileExists = false)
    ∧ ((analyze_prescription_image (H := Unit)
          ⟨false, none, Except.ok [], none⟩ ocrStart).2.medications
        = ["Error: Input file not found on server."]
      ∧ (analyze_prescription_image (H := Unit)
          ⟨false, none, Except.ok [], none⟩ ocrStart).2.interactions = []
      ∧ (analyze_prescription_image (H := Unit)
          ⟨false, none, Except.ok [], none⟩ ocrStart).2.accuracy_score = 0) :=
  ⟨rfl, (C1_error_handling _ _).1 rfl⟩

/-! ### C7 infrastructure: properties of the fuzzy scorer -/

theorem toLower_isWordChar (c : Char) : isWordChar c.toLower = isWordChar c := by
  unfold Char.toLower
  dsimp only
  by_cases h : c.toNat ≥ 65 ∧ c.toNat ≤ 90
  · rw [if_pos h]
    obtain ⟨h1, h2⟩ := h
    interval_cases h : c.toNat
    all_goals (rw [show c = Char.ofNat _ from (Char.ofNat_toNat c).symm, h]; decide)
  · rw [if_neg h]

theorem lev2_self (a : List Char) : lev2 a a = 0 := by
  induction a with
  | nil => simp [lev2]
  | cons x xs ih => simp [lev2, ih]

theorem lev2_eq_zero {a b : List Char} (h : lev2 a b = 0) : a = b := by
  induction a generalizing b with
  | nil =>
    cases b with
    | nil => rfl
    | cons y ys => simp [lev2] at h
  | cons x xs ih =>
    cases b with
    | nil => simp [lev2] at h
    | cons y ys =>
      by_cases hxy : x = y
      · subst hxy
        simp only [lev2, if_pos rfl] at h
        rw [ih h]
      · simp only [lev2, if_neg hxy] at h
        omega

theorem lev2_le : ∀ (n : Nat) (a b : List Char), a.length + b.length ≤ n →
    lev2 a b ≤ a.length + b.length := by
  intro n
  induction n with
  | zero =>
    intro a b h
    have ha : a = [] := by cases a <;> simp_all
    have hb : b = [] := by cases b <;> simp_all
    subst ha; subst hb
    simp [lev2]
  | succ m ih =>
    intro a b h
    cases a with
    | nil => simp [lev2]
    | cons x xs =>
      cases b with
      | nil => simp [lev2]
      | cons y ys =>
        by_cases hxy : x = y
        · subst hxy
          rw [show lev2 (x :: xs) (x :: ys) = lev2 xs ys from by simp [lev2]]
          have := ih xs ys (by simp at h ⊢; omega)
          simp only [List.length_cons]
          omega
        · rw [show lev2 (x :: xs) (y :: ys)
            = min (min (lev2 xs (y :: ys) + 1) (lev2 (x :: xs) ys + 1)) (lev2 xs ys + 2)
            from by simp [lev2, hxy]]
          have h3 := ih xs ys (by simp at h ⊢; omega)
          simp only [List.length_cons]
          omega

theorem roundHEN_le_100 {num den : Nat} (hden : den ≠ 0) (hnum : num ≤ 100 * den) :
    roundHEN num den ≤ 100 := by
  have hdm := Nat.div_add_mod num den
  have hmod : num % den < den := Nat.mod_lt _ (Nat.pos_of_ne_zero hden)
  have hq : num / den ≤ 100 := by
    by_contra hq2
    push_neg at hq2
    have : 101 * den ≤ (num / den) * den := Nat.mul_le_mul_right den hq2
    nlinarith [Nat.div_mul_le_self num den]
  unfold roundHEN
  dsimp only
  split_ifs with h1 h2 h3
  · exact hq
  · rcases Nat.lt_or_ge (num / den) 100 with h | h
    · omega
    · have hq100 : num / den = 100 := le_antisymm hq h
      nlinarith
  · exact hq
  · rcases Nat.lt_or_ge (num / den) 100 with h | h
    · omega
    · have hq100 : num / den = 100 := le_antisymm hq h
      nlinarith

theorem roundHEN_eq_100 {num den : Nat} (hden : den ≠ 0) (h : roundHEN num den = 100) :
    199 * den ≤ 2 * num := by
  have hdm := Nat.div_add_mod num den
  have hmod : num % den < den := Nat.mod_lt _ (Nat.pos_of_ne_zero hden)
  unfold roundHEN at h
  dsimp only at h
  split_ifs at h with h1 h2 h3
  · rw [h] at hdm
    omega
  · have hq : num / den = 99 := by omega
    rw [hq] at hdm
    omega
  · rw [h] at hdm
    omega
  · have hq : num / den = 99 := by omega
    rw [hq] at hdm
    omega

theorem roundHEN_mul (k den : Nat) (hden : 0 < den) : roundHEN (k * den) den = k := by
  unfold roundHEN
  dsimp only
  rw [Nat.mul_div_cancel k hden, Nat.mul_mod_left]
  rw [if_pos (by omega)]

theorem fuzzRatio_self (a : List Char) : fuzzRatio a a = 100 := by
  unfold fuzzRatio
  dsimp only
  by_cases hL : a.length + a.length = 0
  · rw [if_pos hL]
  · rw [if_neg hL, lev2_self, Nat.sub_zero,
      show 200 * (a.length + a.length) = 100 * (2 * (a.length + a.length)) from by ring,
      roundHEN_mul 100 _ (by omega)]

theorem fuzzRatio_le_100 (a b : List Char) : fuzzRatio a b ≤ 100 := by
  unfold fuzzRatio
  dsimp only
  by_cases hL : a.length + b.length = 0
  · rw [if_pos hL]
  · rw [if_neg hL]
    exact roundHEN_le_100 (by omega) (by
      have := Nat.sub_le (a.length + b.length) (lev2 a b)
      nlinarith)

theorem fuzzRatio_eq_100 {a b : List Char} (h : fuzzRatio a b = 100)
    (hL : a.length + b.length ≤ 199) : a = b := by
  unfold fuzzRatio at h
  dsimp only at h
  by_cases hz : a.length + b.length = 0
  · have ha : a = [] := by cases a <;> simp_all
    have hb : b = [] := by cases b <;> simp_all
    rw [ha, hb]
  · rw [if_neg hz] at h
    have hd := lev2_le (a.length + b.length) a b (le_refl _)
    have h199 := roundHEN_eq_100 (by omega) h
    have hdz : lev2 a b = 0 := by omega
    exact lev2_eq_zero hdz

/-! ### C7 infrastructure: `full_process` on clean lowercase words -/

theorem stripList_eq_self {p : Char → Bool} {l : List Char}
    (h : ∀ x ∈ l, p x = false) : stripList p l = l := by
  unfold stripList
  have h1 : l.dropWhile p = l := by
    cases l with
    | nil => rfl
    | cons x xs => simp [List.dropWhile_cons, h x (by simp)]
  rw [h1]
  have h2 : l.reverse.dropWhile p = l.reverse := by
    cases hr : l.reverse with
    | nil => rfl
    | cons x xs =>
      have hx : x ∈ l := by
        rw [← List.mem_reverse, hr]
        simp
      simp [List.dropWhile_cons, h x hx]
  rw [h2, List.reverse_reverse]

theorem fullProcess_of_word {l : List Char}
    (hw : ∀ x ∈ l, isWordChar x = true) (hlow : l.map Char.toLower = l) :
    fullProcess l = l := by
  unfold fullProcess
  have hm : (l.map fun c => if isWordChar c then c.toLower else ' ') = l := by
    rw [show (l.map fun c => if isWordChar c then c.toLower else ' ')
        = l.map Char.toLower from List.map_congr_left (fun x hx => by rw [if_pos (hw x hx)])]
    exact hlow
  rw [hm]
  apply stripList_eq_self
  intro x hx
  have := hw x hx
  cases hc : (x == ' ')
  · rfl
  · rw [show x = ' ' from by simpa using hc] at this
    simp [isWordChar] at this

theorem stripList_length_le (p : Char → Bool) (l : List Char) :
    (stripList p l).length ≤ l.length := by
  unfold stripList
  calc ((l.dropWhile p).reverse.dropWhile p).reverse.length
      = ((l.dropWhile p).reverse.dropWhile p).length := List.length_reverse _
    _ ≤ (l.dropWhile p).reverse.length := (List.dropWhile_sublist _).length_le
    _ = (l.dropWhile p).length := List.length_reverse _
    _ ≤ l.length := (List.dropWhile_sublist _).length_le

theorem fullProcess_length_le (l : List Char) : (fullProcess l).length ≤ l.length := by
  unfold fullProcess
  calc (stripList (· == ' ') (l.map fun c => if isWordChar c then c.toLower else ' ')).length
      ≤ (l.map fun c => if isWordChar c then c.toLower else ' ').length :=
        stripList_length_le _ _
    _ = l.length := List.length_map _ _

/-! ### C7 infrastructure: `extractOne` returns an exact canonical query -/

theorem extractOneAux_stable (pw c : List Char) (rest : List (List Char))
    (hall : ∀ s ∈ rest, fuzzRatio pw (fullProcess s) ≤ 100) :
    extractOneAux pw rest (some (c, 100)) = some (c, 100) := by
  induction rest with
  | nil => rfl
  | cons s rest ih =>
    simp only [extractOneAux]
    rw [if_neg (by
      have := hall s (by simp)
      omega)]
    exact ih (fun t ht => hall t (by simp [ht]))

theorem extractOneAux_finds (c : List Char) (hpc : fullProcess c = c) :
    ∀ (rest : List (List Char)) (acc : Option (List Char × Nat)),
    c ∈ rest →
    (∀ s ∈ rest, fuzzRatio c (fullProcess s) = 100 → s = c) →
    (acc = none ∨ ∃ b bs, acc = some (b, bs) ∧ (bs < 100 ∨ (b = c ∧ bs = 100))) →
    extractOneAux c rest acc = some (c, 100) := by
  intro rest
  induction rest with
  | nil =>
    intro acc hc _ _
    cases hc
  | cons s rest ih =>
    intro acc hc h100 hacc
    by_cases hsc : s = c
    · subst hsc
      have hsc100 : fuzzRatio s (fullProcess s) = 100 := by
        rw [hpc]
        exact fuzzRatio_self s
      rcases hacc with rfl | ⟨b, bs, rfl, hb⟩
      · simp only [extractOneAux]
        rw [hsc100]
        exact extractOneAux_stable _ _ rest (fun t _ => fuzzRatio_le_100 _ _)
      · simp only [extractOneAux]
        rcases hb with hlt | ⟨hbc, hbs100⟩
        · rw [hsc100, if_pos (by omega)]
          exact extractOneAux_stable _ _ rest (fun t _ => fuzzRatio_le_100 _ _)
        · subst hbc
          subst hbs100
          rw [hsc100, if_neg (by omega)]
          exact extractOneAux_stable _ _ rest (fun t _ => fuzzRatio_le_100 _ _)
    · have hsne : fuzzRatio c (fullProcess s) ≠ 100 :=
        fun hh => hsc (h100 s (by simp) hh)
      have hsle : fuzzRatio c (fullProcess s) ≤ 100 := fuzzRatio_le_100 _ _
      have hc' : c ∈ rest := by
        rcases List.mem_cons.mp hc with h | h
        · exact absurd h.symm hsc
        · exact h
      have h100' : ∀ t ∈ rest, fuzzRatio c (fullProcess t) = 100 → t = c :=
        fun t ht => h100 t (by simp [ht])
      rcases hacc with rfl | ⟨b, bs, rfl, hb⟩
      · simp only [extractOneAux]
        exact ih _ hc' h100' (Or.inr ⟨s, _, rfl, Or.inl (by omega)⟩)
      · simp only [extractOneAux]
        by_cases hbs : bs < fuzzRatio c (fullProcess s)
        · rw [if_pos hbs]
          exact ih _ hc' h100' (Or.inr ⟨s, _, rfl, Or.inl (by omega)⟩)
        · rw [if_neg hbs]
          exact ih _ hc' h100' (Or.inr ⟨b, bs, rfl, hb⟩)

theorem extractOne_self (c : List Char) (hpc : fullProcess c = c)
    (choices : List (List Char)) (hc : c ∈ choices)
    (h100 : ∀ s ∈ choices, fuzzRatio c (fullProcess s) = 100 → s = c) :
    extractOne c choices = some (c, 100) := by
  unfold extractOne
  rw [hpc]
  exact extractOneAux_finds c hpc choices none hc h100 (Or.inl rfl)

/-! ### C7 infrastructure: facts about the concrete dictionary -/

theorem dedupFirstAux_subset {α : Type} [DecidableEq α] :
    ∀ (l seen : List α) (x : α), x ∈ dedupFirstAux l seen → x ∈ l := by
  intro l
  induction l with
  | nil =>
    intro seen x hx
    cases hx
  | cons y rest ih =>
    intro seen x hx
    simp only [dedupFirstAux] at hx
    by_cases hy : y ∈ seen
    · rw [if_pos hy] at hx
      exact List.mem_cons_of_mem _ (ih _ _ hx)
    · rw [if_neg hy] at hx
      rcases List.mem_cons.mp hx with rfl | hx2
      · exact List.mem_cons_self _ _
      · exact List.mem_cons_of_mem _ (ih _ _ hx2)

theorem mem_dedupFirstAux {α : Type} [DecidableEq α] :
    ∀ (l seen : List α) (x : α), x ∈ l → x ∈ dedupFirstAux l seen ∨ x ∈ seen := by
  intro l
  induction l with
  | nil =>
    intro seen x hx
    cases hx
  | cons y rest ih =>
    intro seen x hx
    simp only [dedupFirstAux]
    by_cases hy : y ∈ seen
    · rw [if_pos hy]
      rcases List.mem_cons.mp hx with rfl | hx2
      · exact Or.inr hy
      · exact ih _ _ hx2
    · rw [if_neg hy]
      rcases List.mem_cons.mp hx with rfl | hx2
      · exact Or.inl (List.mem_cons_self _ _)
      · rcases ih (y :: seen) x hx2 with h | h
        · exact Or.inl (List.mem_cons_of_mem _ h)
        · rcases List.mem_cons.mp h with rfl | h2
          · exact Or.inl (List.mem_cons_self _ _)
          · exact Or.inr h2

theorem keys_lowercase :
    ∀ k ∈ MEDICATION_DICT.map (fun kv => Prod.fst kv),
      k.data.map Char.toLower = k.data := by decide

theorem keys_len35 :
    ∀ k ∈ MEDICATION_DICT.map (fun kv => Prod.fst kv), k.data.length ≤ 35 := by decide

theorem keys_in_pool :
    ∀ k ∈ MEDICATION_DICT.map (fun kv => Prod.fst kv), k ∈ DRUG_POOL := by decide

theorem pool_len35 : ∀ s ∈ DRUG_POOL, s.data.length ≤ 35 := by decide

theorem pool_lowercase : ∀ s ∈ DRUG_POOL, s.data.map Char.toLower = s.data := by decide

theorem pool_word_or_space :
    ∀ s ∈ DRUG_POOL, s.data.all isWordChar = true ∨ ' ' ∈ fullProcess s.data := by decide

/-- For a canonical single-token key `c`, `extractOne` over the drug set
returns `c` itself with the perfect score 100. -/
theorem extractOne_key (c : String)
    (hk : c ∈ MEDICATION_DICT.map (fun kv => Prod.fst kv))
    (hcw : ∀ x ∈ c.data, isWordChar x = true) :
    extractOne c.data (KNOWN_DRUGS.map String.data) = some (c.data, 100) := by
  have hlow := keys_lowercase c hk
  have hproc : fullProcess c.data = c.data := fullProcess_of_word hcw hlow
  have hmem : c ∈ KNOWN_DRUGS := by
    unfold KNOWN_DRUGS dedupFirst
    rcases mem_dedupFirstAux DRUG_POOL [] c (keys_in_pool c hk) with h | h
    · exact h
    · cases h
  apply extractOne_self c.data hproc _ (List.mem_map_of_mem _ hmem)
  intro sd hsd h100
  obtain ⟨s, hs, rfl⟩ := List.mem_map.mp hsd
  have hpool : s ∈ DRUG_POOL := by
    unfold KNOWN_DRUGS dedupFirst at hs
    exact dedupFirstAux_subset _ _ _ hs
  have hslen := pool_len35 s hpool
  have hplen : (fullProcess s.data).length ≤ 35 :=
    le_trans (fullProcess_length_le _) hslen
  have hclen := keys_len35 c hk
  have heq : c.data = fullProcess s.data := fuzzRatio_eq_100 h100 (by omega)
  rcases pool_word_or_space s hpool with hall | hsp
  · have hw : ∀ x ∈ s.data, isWordChar x = true := by
      intro x hx
      exact List.all_eq_true.mp hall x hx
    have hps : fullProcess s.data = s.data := fullProcess_of_word hw (pool_lowercase s hpool)
    rw [hps] at heq
    exact heq.symm
  · rw [← heq] at hsp
    exact absurd (hcw ' ' hsp) (by decide)

/-! ### C7: the fuzzy corrector round-trips exact canonical tokens -/

theorem substFirst_eq_substRes (w r t : List Char) : substFirst w r t = substRes w r false t := rfl

theorem substRes_nil (w r : List Char) (pw : Bool) : substRes w r pw [] = [] := rfl

theorem substRes_skip (w r : List Char) (x : Char) (l : List Char) (pw : Bool)
    (h : pw = true ∨ matchCI w (x :: l) = none ∨
      ∃ rem d, matchCI w (x :: l) = some rem ∧ rem.head? = some d ∧ isWordChar d = true) :
    substRes w r pw (x :: l) = x :: substRes w r (isWordChar x) l := by
  unfold substRes
  rcases h with rfl | hm | ⟨rem, d, hm, hd, hdw⟩
  · simp only [substFirstAux, if_pos rfl]
    cases substFirstAux w r (isWordChar x) l <;> rfl
  · rcases hpw : pw with _ | _
    · simp only [substFirstAux, Bool.false_eq_true, if_neg (by decide : ¬False), hm]
      cases substFirstAux w r (isWordChar x) l <;> rfl
    · simp only [substFirstAux, if_pos rfl]
      cases substFirstAux w r (isWordChar x) l <;> rfl
  · rcases hpw : pw with _ | _
    · simp only [substFirstAux, Bool.false_eq_true, if_neg (by decide : ¬False), hm, hd, hdw,
        if_pos]
      cases substFirstAux w r (isWordChar x) l <;> rfl
    · simp only [substFirstAux, if_pos rfl]
      cases substFirstAux w r (isWordChar x) l <;> rfl

theorem substRes_found (w r : List Char) (x : Char) (l rem : List Char)
    (hm : matchCI w (x :: l) = some rem) (hd : headNonWord rem) :
    substRes w r false (x :: l) = r ++ rem := by
  unfold substRes
  simp only [substFirstAux, Bool.false_eq_true, if_neg (by decide : ¬False), hm]
  unfold headNonWord at hd
  cases hh : rem.head? with
  | none => rfl
  | some d =>
    rw [hh] at hd
    simp only [hd, Bool.false_eq_true, if_neg (by decide : ¬False)]
    rfl

theorem matchCI_some : ∀ (w t rem : List Char), matchCI w t = some rem →
    ∃ mid, t = mid ++ rem ∧ mid.map Char.toLower = w := by
  intro w
  induction w with
  | nil =>
    intro t rem h
    simp only [matchCI, Option.some.injEq] at h
    exact ⟨[], by simp [h], rfl⟩
  | cons p ps ih =>
    intro t rem h
    cases t with
    | nil => simp [matchCI] at h
    | cons c cs =>
      simp only [matchCI] at h
      by_cases hpc : p = c.toLower
      · rw [if_pos hpc] at h
        obtain ⟨mid, hm, hmap⟩ := ih cs rem h
        exact ⟨c :: mid, by simp [hm], by simp [hmap, hpc]⟩
      · rw [if_neg hpc] at h
        cases h

theorem substRes_word_run (w r : List Char) :
    ∀ (run post : List Char), (∀ x ∈ run, isWordChar x = true) →
    substRes w r true (run ++ post) = run ++ substRes w r true post := by
  intro run
  induction run with
  | nil => intro post _; rfl
  | cons x rest ih =>
    intro post hall
    rw [List.cons_append, substRes_skip w r x (rest ++ post) true (Or.inl rfl),
      hall x (List.mem_cons_self _ _), ih post (fun y hy => hall y (List.mem_cons_of_mem _ hy)),
      List.cons_append]

theorem headNonWord_substRes_true (w r post : List Char) (h : headNonWord post) :
    headNonWord (substRes w r true post) := by
  cases post with
  | nil => rw [substRes_nil]; trivial
  | cons d post' =>
    rw [substRes_skip w r d post' true (Or.inl rfl)]
    unfold headNonWord at h ⊢
    simpa using h

/-- Core preservation lemma: replacing the first whole-word occurrence of
`w` by `r` cannot destroy a whole-word occurrence of the lowercase word
`c`, provided the replacement is the identity when `w` is `c` itself. -/
theorem subst_preserves (w r c : List Char)
    (hw : w ≠ []) (hww : ∀ x ∈ w, isWordChar x = true)
    (hcl : c.map Char.toLower = c)
    (hwr : w = c → r = c)
    (hc : c ≠ []) (hcw : ∀ x ∈ c, isWordChar x = true) :
    ∀ (pre : List Char) (pw : Bool) (post : List Char),
      lastNonWord pre pw → headNonWord post →
      ∃ pre2 post2, substRes w r pw (pre ++ c ++ post) = pre2 ++ c ++ post2 ∧
        lastNonWord pre2 pw ∧ headNonWord post2 := by
  have hmid : ∀ mid, mid.map Char.toLower = w → mid ≠ [] ∧ ∀ x ∈ mid, isWordChar x = true := by
    intro mid hmap
    constructor
    · intro hnil
      rw [hnil] at hmap
      exact hw hmap.symm
    · intro x hx
      have hxl : x.toLower ∈ w := hmap ▸ List.mem_map_of_mem _ hx
      have hxw := hww _ hxl
      rwa [toLower_isWordChar] at hxw
  intro pre
  induction pre with
  | nil =>
    intro pw post hpre hpost
    have hpw : pw = false := hpre
    subst hpw
    obtain ⟨c0, c', rfl⟩ : ∃ c0 c', c = c0 :: c' := by
      cases c with
      | nil => exact absurd rfl hc
      | cons a b => exact ⟨a, b, rfl⟩
    show ∃ pre2 post2, substRes w r false (c0 :: (c' ++ post)) = pre2 ++ (c0 :: c') ++ post2 ∧
      lastNonWord pre2 false ∧ headNonWord post2
    have hskip : substRes w r false (c0 :: (c' ++ post)) =
        c0 :: substRes w r (isWordChar c0) (c' ++ post) →
        ∃ pre2 post2, substRes w r false (c0 :: (c' ++ post)) = pre2 ++ (c0 :: c') ++ post2 ∧
          lastNonWord pre2 false ∧ headNonWord post2 := by
      intro heq
      rw [heq, hcw c0 (List.mem_cons_self _ _),
        substRes_word_run w r c' post (fun y hy => hcw y (List.mem_cons_of_mem _ hy))]
      exact ⟨[], substRes w r true post, rfl, rfl, headNonWord_substRes_true w r post hpost⟩
    cases hm : matchCI w (c0 :: (c' ++ post)) with
    | none =>
      exact hskip (substRes_skip w r c0 (c' ++ post) false (Or.inr (Or.inl hm)))
    | some rem =>
      by_cases hinv : ∃ d, rem.head? = some d ∧ isWordChar d = true
      · obtain ⟨d, hh, hdw⟩ := hinv
        exact hskip (substRes_skip w r c0 (c' ++ post) false
          (Or.inr (Or.inr ⟨rem, d, hm, hh, hdw⟩)))
      · have hdnw : headNonWord rem := by
          unfold headNonWord
          cases hh : rem.head? with
          | none => trivial
          | some d =>
            show isWordChar d = false
            by_contra hdt
            exact hinv ⟨d, hh, by simpa using hdt⟩
        obtain ⟨mid, hsplit, hmap⟩ := matchCI_some w _ rem hm
        obtain ⟨hmne, hmw⟩ := hmid mid hmap
        have hsplit2 : (c0 :: c') ++ post = mid ++ rem := hsplit
        have hmidc : mid = c0 :: c' ∧ rem = post := by
          rcases List.append_eq_append_iff.mp hsplit2 with ⟨a', ha1, ha2⟩ | ⟨e', he1, he2⟩
          · -- mid = (c0 :: c') ++ a', post = a' ++ rem
            cases a' with
            | nil =>
              rw [List.append_nil] at ha1
              rw [List.nil_append] at ha2
              exact ⟨ha1, ha2.symm⟩
            | cons e a'' =>
              exfalso
              have hew : isWordChar e = true := by
                apply hmw
                rw [ha1]
                exact List.mem_append_right _ (List.mem_cons_self _ _)
              have hef : isWordChar e = false := by
                rw [ha2] at hpost
                exact hpost
              simp [hew] at hef
          · -- c0 :: c' = mid ++ e', rem = e' ++ post
            cases e' with
            | nil =>
              rw [List.append_nil] at he1
              rw [List.nil_append] at he2
              exact ⟨he1.symm, he2⟩
            | cons e e'' =>
              exfalso
              have hew : isWordChar e = true := by
                apply hcw
                rw [he1]
                exact List.mem_append_right _ (List.mem_cons_self _ _)
              have hef : isWordChar e = false := by
                rw [he2] at hdnw
                exact hdnw
              simp [hew] at hef
        obtain ⟨hmidc1, hremp⟩ := hmidc
        have hwc : w = c0 :: c' := by rw [← hmap, hmidc1, hcl]
        have hr : r = c0 :: c' := hwr hwc
        rw [substRes_found w r c0 (c' ++ post) rem hm hdnw, hr, hremp]
        exact ⟨[], post, rfl, rfl, hpost⟩
  | cons p pre' ih =>
    intro pw post hpre hpost
    have hskip : substRes w r pw ((p :: pre') ++ c ++ post) =
        p :: substRes w r (isWordChar p) (pre' ++ c ++ post) →
        ∃ pre2 post2, substRes w r pw ((p :: pre') ++ c ++ post) = pre2 ++ c ++ post2 ∧
          lastNonWord pre2 pw ∧ headNonWord post2 := by
      intro heq
      have hpre' : lastNonWord pre' (isWordChar p) := by
        cases pre' with
        | nil => exact hpre
        | cons q rest => exact hpre
      obtain ⟨pre2, post2, hres, hpre2, hpost2⟩ := ih (isWordChar p) post hpre' hpost
      refine ⟨p :: pre2, post2, ?_, ?_, hpost2⟩
      · rw [heq, hres]
        rfl
      · cases pre2 with
        | nil => exact hpre2
        | cons q rest => exact hpre2
    have hconsapp : (p :: pre') ++ c ++ post = p :: (pre' ++ c ++ post) := rfl
    cases pw with
    | true =>
      exact hskip (by
        rw [hconsapp]
        exact substRes_skip w r p (pre' ++ c ++ post) true (Or.inl rfl))
    | false =>
      cases hm : matchCI w (p :: (pre' ++ c ++ post)) with
        | none =>
          exact hskip (by
            rw [hconsapp]
            exact substRes_skip w r p (pre' ++ c ++ post) false (Or.inr (Or.inl hm)))
        | some rem =>
          by_cases hinv : ∃ d, rem.head? = some d ∧ isWordChar d = true
          · obtain ⟨d, hh, hdw⟩ := hinv
            exact hskip (by
              rw [hconsapp]
              exact substRes_skip w r p (pre' ++ c ++ post) false
                (Or.inr (Or.inr ⟨rem, d, hm, hh, hdw⟩)))
          · have hdnw : headNonWord rem := by
              unfold headNonWord
              cases hh : rem.head? with
              | none => trivial
              | some d =>
                show isWordChar d = false
                by_contra hdt
                exact hinv ⟨d, hh, by simpa using hdt⟩
            obtain ⟨mid, hsplit, hmap⟩ := matchCI_some w _ rem hm
            obtain ⟨hmne, hmw⟩ := hmid mid hmap
            have hlastpre : ∃ y, (p :: pre').getLast? = some y ∧ isWordChar y = false := by
              unfold lastNonWord at hpre
              cases hgl : (p :: pre').getLast? with
              | none => simp at hgl
              | some y =>
                rw [hgl] at hpre
                exact ⟨y, rfl, hpre⟩
            obtain ⟨y, hy, hynw⟩ := hlastpre
            have hsplit' : (p :: pre') ++ (c ++ post) = mid ++ rem := by
              rw [← hsplit]
              simp
            rcases List.append_eq_append_iff.mp hsplit' with ⟨a', ha1, ha2⟩ | ⟨e', he1, he2⟩
            · -- mid = (p :: pre') ++ a': the prefix's non-word last char sits inside mid
              exfalso
              have hymem : y ∈ mid := by
                rw [ha1]
                exact List.mem_append_left _ (List.mem_of_mem_getLast? hy)
              have := hmw y hymem
              simp [this] at hynw
            · -- p :: pre' = mid ++ e', rem = e' ++ (c ++ post)
              cases e' with
              | nil =>
                -- the match ends exactly where c starts: c's head follows as a word char
                exfalso
                rw [List.nil_append] at he2
                obtain ⟨c0, c', rfl⟩ : ∃ c0 c', c = c0 :: c' := by
                  cases c with
                  | nil => exact absurd rfl hc
                  | cons a b => exact ⟨a, b, rfl⟩
                have hew : isWordChar c0 = true := hcw c0 (List.mem_cons_self _ _)
                have hef : isWordChar c0 = false := by
                  rw [he2] at hdnw
                  exact hdnw
                simp [hew] at hef
              | cons e e'' =>
                -- the match ends inside the prefix: c survives after r ++ e'
                have hres : substRes w r false ((p :: pre') ++ c ++ post) = r ++ rem := by
                  rw [hconsapp]
                  exact substRes_found w r p (pre' ++ c ++ post) rem hm hdnw
                refine ⟨r ++ (e :: e''), post, ?_, ?_, hpost⟩
                · rw [hres, he2]
                  simp
                · unfold lastNonWord
                  rw [List.getLast?_append_of_ne_nil _ (by simp)]
                  have hylast : (e :: e'').getLast? = some y := by
                    rw [he1] at hy
                    rwa [List.getLast?_append_of_ne_nil _ (by simp)] at hy
                  rw [hylast]
                  exact hynw

/-- Every token produced by the tokenizer is a nonempty run of word
characters, provided the accumulator holds only word characters. -/
theorem wordTokensAux_mem : ∀ (l acc t : List Char),
    t ∈ wordTokensAux l acc → (∀ x ∈ acc, isWordChar x = true) →
    t ≠ [] ∧ ∀ x ∈ t, isWordChar x = true := by
  intro l
  induction l with
  | nil =>
    intro acc t ht hacc
    simp only [wordTokensAux] at ht
    by_cases ha : acc = []
    · rw [if_pos ha] at ht
      cases ht
    · rw [if_neg ha] at ht
      rw [List.mem_singleton] at ht
      subst ht
      refine ⟨by simpa using ha, ?_⟩
      intro x hx
      exact hacc x (List.mem_reverse.mp hx)
  | cons ch rest ih =>
    intro acc t ht hacc
    simp only [wordTokensAux] at ht
    by_cases hwch : isWordChar ch = true
    · rw [if_pos hwch] at ht
      refine ih (ch :: acc) t ht ?_
      intro x hx
      rcases List.mem_cons.mp hx with rfl | hx2
      · exact hwch
      · exact hacc x hx2
    · rw [if_neg hwch] at ht
      by_cases ha : acc = []
      · rw [if_pos ha] at ht
        exact ih [] t ht (by intro x hx; cases hx)
      · rw [if_neg ha] at ht
        rcases List.mem_cons.mp ht with rfl | ht2
        · refine ⟨by simpa using ha, ?_⟩
          intro x hx
          exact hacc x (List.mem_reverse.mp hx)
        · exact ih [] t ht2 (by intro x hx; cases hx)

/-- One pass of the correction loop keeps any whole-word occurrence of a
canonical dictionary key intact. -/
theorem correctionStep_preserves (c : String)
    (hk : c ∈ MEDICATION_DICT.map (fun kv => Prod.fst kv))
    (t w : List Char) (hwne : w ≠ []) (hww : ∀ x ∈ w, isWordChar x = true)
    (ht : IsTokenOcc c.data t) : IsTokenOcc c.data (correctionStep t w) := by
  obtain ⟨hcne, hcw, pre, post, hteq, hpre, hpost⟩ := ht
  by_cases hguard : w.length < 4 ∨ w.all Char.isDigit
  · rw [correctionStep, if_pos hguard]
    exact ⟨hcne, hcw, pre, post, hteq, hpre, hpost⟩
  · rw [correctionStep, if_neg hguard]
    cases hex : extractOne w (KNOWN_DRUGS.map String.data) with
    | none => exact ⟨hcne, hcw, pre, post, hteq, hpre, hpost⟩
    | some bs =>
      obtain ⟨best, score⟩ := bs
      show IsTokenOcc c.data (if 75 < score then substFirst w best t else t)
      by_cases hsc : 75 < score
      · rw [if_pos hsc, substFirst_eq_substRes]
        have hwr : w = c.data → best = c.data := by
          intro hwc
          subst hwc
          rw [extractOne_key c hk hcw] at hex
          simp only [Option.some.injEq, Prod.mk.injEq] at hex
          exact hex.1.symm
        subst hteq
        obtain ⟨pre2, post2, hres, hpre2, hpost2⟩ :=
          subst_preserves w best c.data hwne hww (keys_lowercase c hk) hwr hcne hcw
            pre false post hpre hpost
        exact ⟨hcne, hcw, pre2, post2, hres, hpre2, hpost2⟩
      · rw [if_neg hsc]
        exact ⟨hcne, hcw, pre, post, hteq, hpre, hpost⟩

/-- The whole correction fold keeps any whole-word occurrence of a
canonical dictionary key intact. -/
theorem foldl_correctionStep_preserves (c : String)
    (hk : c ∈ MEDICATION_DICT.map (fun kv => Prod.fst kv)) :
    ∀ (ws : List (List Char)) (t : List Char),
    (∀ w ∈ ws, w ≠ [] ∧ ∀ x ∈ w, isWordChar x = true) →
    IsTokenOcc c.data t → IsTokenOcc c.data (ws.foldl correctionStep t) := by
  intro ws
  induction ws with
  | nil =>
    intro t _ ht
    exact ht
  | cons w ws ih =>
    intro t hws ht
    simp only [List.foldl_cons]
    obtain ⟨hwne, hww⟩ := hws w (List.mem_cons_self _ _)
    exact ih _ (fun v hv => hws v (List.mem_cons_of_mem _ hv))
      (correctionStep_preserves c hk t w hwne hww ht)

/-- C7: for every input string containing a whole-word token that is
exactly a canonical lexicon key (e.g. "amoxicillin"), the correction
pass leaves that token present unchanged as a whole-word token of the
output: the key is its own best match with self-similarity 100, so its
replacement is the identity, and no other word's replacement can
overwrite a whole-word occurrence of the key. -/
theorem C7_exact_token_preserved (text c : String)
    (hk : c ∈ MEDICATION_DICT.map (fun kv => Prod.fst kv))
    (htok : IsTokenOcc c.data text.data) :
    IsTokenOcc c.data (apply_medical_dictionary_correction text).data := by
  unfold apply_medical_dictionary_correction
  by_cases hempty : text = ""
  · rw [if_pos hempty]
    exact htok
  · rw [if_neg hempty]
    show IsTokenOcc c.data
      ((dedupFirst (wordTokens (pyLower text).data)).foldl correctionStep text.data)
    apply foldl_correctionStep_preserves c hk _ _ _ htok
    intro w hw
    unfold dedupFirst at hw
    have hw' : w ∈ wordTokens (pyLower text).data := dedupFirstAux_subset _ _ _ hw
    unfold wordTokens at hw'
    exact wordTokensAux_mem _ _ _ hw' (by intro x hx; cases hx)

/-- Witness for C7: the token "amoxicillin" of the concrete input
"take amoxicillin now" is a canonical key occurring as a whole word, and
it still occurs as a whole word after the correction pass. -/
theorem C7_witness :
    "amoxicillin" ∈ MEDICATION_DICT.map (fun kv => Prod.fst kv) ∧
    IsTokenOcc "amoxicillin".data "take amoxicillin now".data ∧
    IsTokenOcc "amoxicillin".data
      (apply_medical_dictionary_correction "take amoxicillin now").data := by
  have hk : "amoxicillin" ∈ MEDICATION_DICT.map (fun kv => Prod.fst kv) := by decide
  have htok : IsTokenOcc "amoxicillin".data "take amoxicillin now".data :=
    ⟨by decide, by decide, "take ".data, " now".data, by decide,
      (by decide : isWordChar ' ' = false),
      (by decide : isWordChar ' ' = false)⟩
  exact ⟨hk, htok, C7_exact_token_preserved "take amoxicillin now" "amoxicillin" hk htok⟩

end Analizer
